import Mathlib

/-!
Shallow embedding of the SignalLang compiler core (symbol table,
TAC generator, dead-code eliminator) together with theorems checking
the natural-language specification against the code.

Source files embedded here:
  * `src/errorHandler/errorHandler.{h,cpp}` (error record shape only)
  * `src/symbolTable/symbolTable.{h,cpp}`
  * `src/lexer/lexer.cpp`
  * the TAC generator and dead-code eliminator translation units
    (`TACGenerator`, `DeadCodeEliminator`) and the headers `tac.h`,
    `tacGen.h`, `dce.h`.

Modelling conventions:
  * C++ `int` becomes `Int`; the address counter (`nextMemoryIndex`,
    a non-negative counter) becomes `Nat`.
  * `std::vector<std::unordered_map<...>>` scope stacks become
    `List ScopeFrame` with the HEAD of the list being the innermost
    scope (the C++ vector's `back()`); association lists stand in for
    the unordered maps (only name-keyed lookup, overwrite and
    iteration are used by the code).
  * The `ErrorHandler` collaborator is a grow-only list of
    `CompilerError` records; operations that may report return an
    `Option CompilerError` that the caller appends.
  * The streaming `Lexer` is split into a pure tokenizer over the
    character list plus the one symbol-table side effect performed by
    `Lexer::lexIdentifier` (token-placeholder insertion).  Because the
    generator pulls exactly one token per `getNextToken` call, the
    side effect is applied at pull time, which reproduces the
    interleaving of the real streaming pipeline.
-/

/-! ## Error handler data (`errorHandler.h`) -/

inductive ErrorPhase
  | LEXICAL | SYNTAX | SEMANTIC | RUNTIME | GENERIC
deriving DecidableEq, Repr

inductive Severity
  | INFO | WARNING | ERROR | FATAL
deriving DecidableEq, Repr

structure CompilerError where
  phase : ErrorPhase
  severity : Severity
  message : String
  line : Int
  column : Int
  recoverable : Bool
deriving DecidableEq, Repr

/-- Model of `ErrorHandler::reportError` building the stored record:
severity `ERROR`, recoverable `true`. -/
def mkReportError (p : ErrorPhase) (msg : String) (line col : Int) : CompilerError :=
  ⟨p, .ERROR, msg, line, col, true⟩

/-! ## Symbol table (`symbolTable.h` / `symbolTable.cpp`) -/

structure SymbolEntry where
  name : String
  kind : String
  type : String
  scopeLevel : Int
  memoryAddr : String
  value : String
  is_state : Bool
  is_used : Bool
  decl_line : Int
  is_dummy : Bool
deriving DecidableEq, Repr

/-- Parameterized `SymbolEntry` constructor: the remaining fields keep
their C++ in-class defaults (empty strings, false flags). -/
def mkEntry (n k t : String) (s : Int) (line : Int) : SymbolEntry :=
  ⟨n, k, t, s, "", "", false, false, line, false⟩

/-- One scope frame: the name-keyed `unordered_map` of the C++ code,
modelled as an association list. -/
abbrev ScopeFrame := List (String × SymbolEntry)

/-- Lookup of a name inside one frame (`table.find(name)`). -/
def ScopeFrame.findEntry : ScopeFrame → String → Option SymbolEntry
  | [], _ => none
  | (k, e) :: rest, n => if k = n then some e else ScopeFrame.findEntry rest n

/-- The map write `table[name] = e`: overwrite the binding if present,
append it otherwise. -/
def ScopeFrame.store : ScopeFrame → String → SymbolEntry → ScopeFrame
  | [], n, e => [(n, e)]
  | (k, e0) :: rest, n, e =>
      if k = n then (k, e) :: rest else (k, e0) :: ScopeFrame.store rest n e

/-- In-place mutation through a pointer obtained from a map find:
apply `g` to the entry bound to `n`, if any. -/
def ScopeFrame.modifyEntry : ScopeFrame → String → (SymbolEntry → SymbolEntry) → ScopeFrame
  | [], _, _ => []
  | (k, e) :: rest, n, g =>
      if k = n then (k, g e) :: rest else (k, e) :: ScopeFrame.modifyEntry rest n g

structure SymbolTable where
  /-- Head of the list = innermost scope (the C++ vector's `back()`),
  last element = the global frame (C++ index 0). -/
  scopes : List ScopeFrame
  nextMemoryIndex : Nat
deriving DecidableEq, Repr

/-- Constructor `SymbolTable::SymbolTable`: counter 0 and one initial
(global) scope pushed by `beginScope()`. -/
def SymbolTable.init : SymbolTable := ⟨[[]], 0⟩

def SymbolTable.beginScope (st : SymbolTable) : SymbolTable :=
  { st with scopes := [] :: st.scopes }

def SymbolTable.endScope (st : SymbolTable) : SymbolTable :=
  match st.scopes with
  | [] => st
  | _ :: rest => { st with scopes := rest }

/-- Model of `currentScope()` = `(int)(scopes.size() - 1)`. -/
def SymbolTable.currentScope (st : SymbolTable) : Int :=
  (st.scopes.length : Int) - 1

def hexDigitChar (n : Nat) : Char :=
  if n < 10 then Char.ofNat (48 + n) else Char.ofNat (87 + n)

def toHexDigits : Nat → Nat → List Char
  | 0, _ => []
  | fuel + 1, x =>
      if x = 0 then [] else toHexDigits fuel (x / 16) ++ [hexDigitChar (x % 16)]

/-- Model of `SymbolTable::to_hex` (lowercase hex rendering of a
non-negative int, as `ostringstream << hex` prints it; the fuel `x`
always covers the digit count). -/
def SymbolTable.to_hex (x : Nat) : String :=
  if x = 0 then "0" else String.mk (toHexDigits x x)

/-- Model of `SymbolTable::reportDuplicate` when an `ErrorHandler` is
attached: a SEMANTIC error citing the original declaration line,
reported at the attempted declaration's line. -/
def reportDuplicate (existing attempt : SymbolEntry) : CompilerError :=
  mkReportError .SEMANTIC
    ("Duplicate declaration of \x27" ++ attempt.name ++
      "\x27; previously declared at line " ++ toString existing.decl_line)
    attempt.decl_line (-1)

/-- Address assignment block of `SymbolTable::insert`: when the entry
has no address yet, assign one from the shared counter (hex-rendered
for state and global variables, a stack slot otherwise) and advance
the counter. -/
def assignAddr (e1 : SymbolEntry) (idx : Nat) : SymbolEntry × Nat :=
  if e1.memoryAddr = "" then
    if e1.kind = "variable" ∧ e1.is_state = true then
      ({ e1 with memoryAddr := "0x" ++ SymbolTable.to_hex (0x1000 + idx) }, idx + 1)
    else if e1.kind = "variable" ∧ e1.scopeLevel = 0 then
      ({ e1 with memoryAddr := "0x" ++ SymbolTable.to_hex (0x1000 + idx) }, idx + 1)
    else
      ({ e1 with memoryAddr := "stk" ++ toString idx }, idx + 1)
  else (e1, idx)

/-- Model of `SymbolTable::insert`.  Returns the new table, the C++
boolean result, and the diagnostic handed to the error handler, if
any. -/
def SymbolTable.insert (st : SymbolTable) (entry : SymbolEntry) :
    SymbolTable × Bool × Option CompilerError :=
  match st.scopes with
  | [] => (st, false, none)
  | table :: outer =>
    match table.findEntry entry.name with
    | some existing => (st, false, some (reportDuplicate existing entry))
    | none =>
      let e1 := { entry with scopeLevel := st.currentScope }
      (⟨table.store entry.name (assignAddr e1 st.nextMemoryIndex).1 :: outer,
          (assignAddr e1 st.nextMemoryIndex).2⟩, true, none)

def lookupFrames : List ScopeFrame → String → Option SymbolEntry
  | [], _ => none
  | f :: rest, n =>
    match f.findEntry n with
    | some e => some e
    | none => lookupFrames rest n

/-- Model of `SymbolTable::lookup`: innermost-to-outermost scan. -/
def SymbolTable.lookup (st : SymbolTable) (n : String) : Option SymbolEntry :=
  lookupFrames st.scopes n

/-- Model of `SymbolTable::lookupLocal`: innermost frame only. -/
def SymbolTable.lookupLocal (st : SymbolTable) (n : String) : Option SymbolEntry :=
  match st.scopes with
  | [] => none
  | f :: _ => f.findEntry n

def SymbolTable.existsInCurrentScope (st : SymbolTable) (n : String) : Bool :=
  (st.lookupLocal n).isSome

/-- Model of `SymbolTable::insertTokenPlaceholder`. -/
def SymbolTable.insertTokenPlaceholder (st : SymbolTable) (name : String) (token_line : Int) :
    SymbolTable × Bool × Option CompilerError :=
  if st.existsInCurrentScope name then (st, false, none)
  else
    let e := { mkEntry name "token" "unknown" (st.currentScope) token_line with
                is_dummy := true, decl_line := token_line }
    st.insert e

/-- The mutation performed through the `lookup` pointer in `markUsed`:
set `is_used` on the innermost binding of the name. -/
def markUsedFrames : List ScopeFrame → String → List ScopeFrame
  | [], _ => []
  | f :: rest, n =>
    if (f.findEntry n).isSome then
      f.modifyEntry n (fun e => { e with is_used := true }) :: rest
    else f :: markUsedFrames rest n

/-- The write `scopes.front()[name] = d` (global frame = last element
of our head-innermost list). -/
def storeGlobal : List ScopeFrame → String → SymbolEntry → List ScopeFrame
  | [], _, _ => []
  | [f], n, d => [f.store n d]
  | f :: rest, n, d => f :: storeGlobal rest n d

/-- Model of `SymbolTable::markUsed`: mark the innermost binding used,
or report UndeclaredIdentifier and synthesize a used global dummy. -/
def SymbolTable.markUsed (st : SymbolTable) (name : String) :
    SymbolTable × Option CompilerError :=
  match st.lookup name with
  | some _ => ({ st with scopes := markUsedFrames st.scopes name }, none)
  | none =>
    let err := mkReportError .SEMANTIC
      ("Undeclared Identifier \x27" ++ name ++ "\x27 used") (-1) (-1)
    let d := { mkEntry name "variable" "unknown" 0 (-1) with
                is_dummy := true, is_used := true }
    ({ st with scopes := storeGlobal st.scopes name d }, some err)

/-- Apply an updater to the entry bound to `name` in the innermost
frame (the `updater(*e)` call of `updateEntry`). -/
def SymbolTable.applyLocal (st : SymbolTable) (name : String)
    (g : SymbolEntry → SymbolEntry) : SymbolTable :=
  match st.scopes with
  | [] => st
  | f :: rest => { st with scopes := f.modifyEntry name g :: rest }

/-- Model of `SymbolTable::updateEntry`. -/
def SymbolTable.updateEntry (st : SymbolTable) (name : String)
    (updater : SymbolEntry → SymbolEntry) :
    SymbolTable × Bool × Option CompilerError :=
  match st.lookupLocal name with
  | some _ => (st.applyLocal name updater, true, none)
  | none =>
    let entry := mkEntry name "variable" "unknown" st.currentScope (-1)
    let (st1, ok, err) := st.insert entry
    if ok = false then (st1, false, err)
    else
      match st1.lookupLocal name with
      | none => (st1, false, err)
      | some _ => (st1.applyLocal name updater, true, err)

def unusedInFrames : List ScopeFrame → List SymbolEntry
  | [] => []
  | f :: rest =>
      (f.filter (fun p => p.2.is_used = false)).map Prod.snd ++ unusedInFrames rest

/-- Model of `SymbolTable::getUnusedEntries`: every entry with
`is_used == false`, innermost scopes first. -/
def SymbolTable.getUnusedEntries (st : SymbolTable) : List SymbolEntry :=
  unusedInFrames st.scopes

/-! ## Tokens and the lexer (`token.h`, `lexer.cpp`) -/

inductive TokenKind
  | IDENT | FLOAT_LIT | SEMICOLON | PLUS | MINUS | STAR | SLASH | ASSIGN
  | END_OF_FILE | UNKNOWN
deriving DecidableEq, Repr

structure Token where
  kind : TokenKind
  lexeme : String
  line : Int
  column : Int
deriving DecidableEq, Repr

/-- C `isspace` (C locale): space, tab, newline, vertical tab, form
feed, carriage return. -/
def isSpaceChar (c : Char) : Bool :=
  c == ' ' || c == '\t' || c == '\n' || c == '\x0b' || c == '\x0c' || c == '\r'

def isIdentStart (c : Char) : Bool := c.isAlpha || c == '_'

def isIdentBody (c : Char) : Bool := c.isAlphanum || c == '_'

/-- Line/column effect of `Lexer::get` consuming character `ch`. -/
def advancePos (l c : Int) (ch : Char) : Int × Int :=
  if ch = '\n' then (l + 1, 1) else (l, c + 1)

/-- The `skipWhitespace` loop over the remaining source characters. -/
def skipWhitespace : List Char → Int → Int → List Char × Int × Int
  | [], l, c => ([], l, c)
  | ch :: rest, l, c =>
    if isSpaceChar ch then
      let (l2, c2) := advancePos l c ch
      skipWhitespace rest l2 c2
    else (ch :: rest, l, c)

/-- Model of `Lexer::lexIdentifier`, minus its symbol-table side effect
(see `lexSideEffect`): consume the identifier body and build the IDENT
token at the start position.  Identifier characters contain no newline,
so the column advances by the consumed length. -/
def lexIdentifier (src : List Char) (line col : Int) :
    Token × List Char × Int × Int :=
  let body := src.takeWhile isIdentBody
  let rest := src.dropWhile isIdentBody
  (⟨.IDENT, String.mk body, line, col⟩, rest, line, col + body.length)

/-- Model of `Lexer::lexNumber` (simple float recognition; also covers
the malformed leading-dot report).  No consumed character is a newline,
so the column advances by the consumed length. -/
def lexNumber (src : List Char) (line col : Int) :
    Token × Option CompilerError × List Char × Int × Int :=
  match src with
  | '.' :: rest =>
    match rest with
    | d :: _ =>
      if d.isDigit then
        let digits := rest.takeWhile Char.isDigit
        let rest2 := rest.dropWhile Char.isDigit
        (⟨.FLOAT_LIT, String.mk ('.' :: digits), line, col⟩, none,
          rest2, line, col + 1 + digits.length)
      else
        (⟨.UNKNOWN, ".", line, col⟩,
          some (mkReportError .LEXICAL
            "Malformed number literal: \x27.\x27 not followed by digits" line (col + 1)),
          rest, line, col + 1)
    | [] =>
      (⟨.UNKNOWN, ".", line, col⟩,
        some (mkReportError .LEXICAL
          "Malformed number literal: \x27.\x27 not followed by digits" line (col + 1)),
        [], line, col + 1)
  | _ =>
    let intPart := src.takeWhile Char.isDigit
    let afterInt := src.dropWhile Char.isDigit
    match afterInt with
    | '.' :: rest =>
      let frac := rest.takeWhile Char.isDigit
      let rest2 := rest.dropWhile Char.isDigit
      (⟨.FLOAT_LIT, String.mk (intPart ++ '.' :: frac), line, col⟩, none,
        rest2, line, col + intPart.length + 1 + frac.length)
    | _ =>
      (⟨.FLOAT_LIT, String.mk intPart, line, col⟩, none,
        afterInt, line, col + intPart.length)

/-- Model of `Lexer::lexOperatorOrSymbol`. -/
def lexOperatorOrSymbol (src : List Char) (line col : Int) :
    Token × Option CompilerError × List Char × Int × Int :=
  match src with
  | [] =>
    (⟨.UNKNOWN, String.mk ['\x00'], line, col⟩,
      some (mkReportError .LEXICAL
        ("Unrecognized symbol \x27" ++ String.mk ['\x00'] ++ "\x27") line col),
      [], line, col)
  | ch :: rest =>
    let (l2, c2) := advancePos line col ch
    if ch = '+' then (⟨.PLUS, "+", line, col⟩, none, rest, l2, c2)
    else if ch = '-' then (⟨.MINUS, "-", line, col⟩, none, rest, l2, c2)
    else if ch = '*' then (⟨.STAR, "*", line, col⟩, none, rest, l2, c2)
    else if ch = '/' then (⟨.SLASH, "/", line, col⟩, none, rest, l2, c2)
    else if ch = '=' then (⟨.ASSIGN, "=", line, col⟩, none, rest, l2, c2)
    else if ch = ';' then (⟨.SEMICOLON, ";", line, col⟩, none, rest, l2, c2)
    else
      (⟨.UNKNOWN, String.mk [ch], line, col⟩,
        some (mkReportError .LEXICAL
          ("Unrecognized symbol \x27" ++ String.mk [ch] ++ "\x27") l2 c2),
        rest, l2, c2)

structure LexerState where
  src : List Char
  line : Int
  col : Int
deriving DecidableEq, Repr

/-- Model of `Lexer::getNextToken`, minus the identifier side effect
(applied at pull time by the generator model). -/
def getNextToken (ls : LexerState) : Token × Option CompilerError × LexerState :=
  let (src, line, col) := skipWhitespace ls.src ls.line ls.col
  match src with
  | [] => (⟨.END_OF_FILE, "<EOF>", line, col⟩, none, ⟨[], line, col⟩)
  | c :: rest =>
    if isIdentStart c then
      let (t, src2, line2, col2) := lexIdentifier (c :: rest) line col
      (t, none, ⟨src2, line2, col2⟩)
    else if c.isDigit ||
        (c == '.' && (match rest with | d :: _ => d.isDigit | [] => false)) then
      let (t, e, src2, line2, col2) := lexNumber (c :: rest) line col
      (t, e, ⟨src2, line2, col2⟩)
    else
      let (t, e, src2, line2, col2) := lexOperatorOrSymbol (c :: rest) line col
      (t, e, ⟨src2, line2, col2⟩)

/-- The `Lexer::tokenize` loop: collect tokens (with the diagnostics
produced while lexing each one) up to and including the END_OF_FILE
token.  Fuel bounds the iteration count; every non-EOF token consumes
at least one source character, so `src.length + 1` steps always
reach EOF. -/
def tokenizeFuel : Nat → LexerState → List (Token × Option CompilerError)
  | 0, _ => []
  | fuel + 1, ls =>
    let (t, e, ls2) := getNextToken ls
    if t.kind = .END_OF_FILE then [(t, e)] else (t, e) :: tokenizeFuel fuel ls2

/-- Tokenize a source string from line 1, column 1 (`setSource`). -/
def tokenize (source : String) : List (Token × Option CompilerError) :=
  tokenizeFuel (source.length + 1) ⟨source.data, 1, 1⟩

/-! ## TAC instructions (`tac.h`) -/

inductive TACOp
  | LOAD_CONST | ASSIGN | ADD | SUB | MUL | DIV | NOP
deriving DecidableEq, Repr

structure TacInst where
  op : TACOp
  dest : String
  arg1 : String
  arg2 : String
  arg1Literal : String
deriving DecidableEq, Repr

/-- Model of `TACGenerator::emitLoadConst`'s instruction. -/
def mkLoadConst (dest literal : String) : TacInst :=
  ⟨.LOAD_CONST, dest, "", "", literal⟩

/-- Model of `TACGenerator::emitBinary`'s instruction. -/
def mkBinary (op : TACOp) (dest a b : String) : TacInst :=
  ⟨op, dest, a, b, ""⟩

/-- Model of `TACGenerator::emitAssign`'s instruction. -/
def mkAssign (dest src : String) : TacInst :=
  ⟨.ASSIGN, dest, src, "", ""⟩

/-! ## TAC generator state (`tacGen.h` fields plus collaborators) -/

/-- Test on the first character of a name, as in the C++ indexing
`name[0] == c` (guarded by a non-emptiness check at every use site). -/
def headCharIs (c : Char) (s : String) : Bool :=
  match s.data with
  | [] => false
  | d :: _ => d == c

/-- Token returned by the streaming lexer once the source is
exhausted. -/
def eofToken : Token := ⟨.END_OF_FILE, "<EOF>", 0, 0⟩

/-- Symbol-table side effect of `Lexer::lexIdentifier`: insert a token
placeholder for a newly lexed identifier that is absent from the
current scope. -/
def lexSideEffect (t : Token) (st : SymbolTable) : SymbolTable :=
  if t.kind = .IDENT ∧ st.existsInCurrentScope t.lexeme = false then
    (st.insertTokenPlaceholder t.lexeme t.line).1
  else st

/-- State of a `TACGenerator` run: the not-yet-lexed rest of the token
stream (each with the diagnostic its lexing produces, if any), the
one-token lookahead `cur`, the symbol table, the error handler's
collected list, and the temporary management fields. -/
structure GenState where
  stream : List (Token × Option CompilerError)
  cur : Token
  sym : SymbolTable
  errs : List CompilerError
  tempCounter : Nat
  freeTemps : List String
deriving DecidableEq, Repr

/-- Advance the lookahead (`cur = lexer->getNextToken()`), applying
the lexing side effects of the newly read token. -/
def GenState.pull (s : GenState) : GenState :=
  match s.stream with
  | [] => { s with cur := eofToken }
  | (t, e) :: rest =>
    { s with
      stream := rest
      cur := t
      sym := lexSideEffect t s.sym
      errs := s.errs ++ e.toList }

/-- Model of `TACGenerator::newTemp`. -/
def GenState.newTemp (s : GenState) : String × GenState :=
  match s.freeTemps with
  | t :: rest => (t, { s with freeTemps := rest })
  | [] => ("t" ++ toString s.tempCounter, { s with tempCounter := s.tempCounter + 1 })

/-- The generator's `err->reportError(phase, msg, line, col)` call. -/
def GenState.report (s : GenState) (p : ErrorPhase) (msg : String)
    (line col : Int) : GenState :=
  { s with errs := s.errs ++ [mkReportError p msg line col] }

/-- Termination measure for the parsing loops: tokens left to read
(one per remaining source token, plus one for a non-EOF lookahead). -/
def GenState.mu (s : GenState) : Nat :=
  s.stream.length + (if s.cur.kind = .END_OF_FILE then 0 else 1)

theorem GenState.mu_pull_le (s : GenState) : s.pull.mu ≤ s.mu := by
  rcases s with ⟨stream, cur, sym, errs, tc, ft⟩
  cases stream with
  | nil => simp [GenState.pull, GenState.mu, eofToken]
  | cons p rest =>
    simp only [GenState.pull, GenState.mu]
    split <;> split <;> simp <;> omega

theorem GenState.mu_pull_lt (s : GenState) (h : ¬ s.cur.kind = .END_OF_FILE) :
    s.pull.mu < s.mu := by
  rcases s with ⟨stream, cur, sym, errs, tc, ft⟩
  cases stream with
  | nil => simp_all [GenState.pull, GenState.mu, eofToken]
  | cons p rest =>
    simp only [GenState.pull, GenState.mu] at *
    split <;> simp_all <;> omega

theorem GenState.mu_newTemp (s : GenState) : (s.newTemp).2.mu = s.mu := by
  rcases s with ⟨stream, cur, sym, errs, tc, ft⟩
  cases ft <;> rfl

theorem GenState.mu_report (s : GenState) (p : ErrorPhase) (msg : String)
    (line col : Int) : (s.report p msg line col).mu = s.mu := rfl

theorem GenState.mu_ite_freeTemps (c : Prop) [Decidable c] (s : GenState)
    (l : List String) :
    GenState.mu (if c then { s with freeTemps := l } else s) = s.mu := by
  split <;> rfl

/-! ## TAC generator parsing functions (`TACGenerator`) -/

/-- Model of `TACGenerator::parseFactor`. -/
def TACGenerator.parseFactor (s : GenState) (out : List TacInst) :
    Option String × GenState × List TacInst :=
  if s.cur.kind = .IDENT then
    let name := s.cur.lexeme
    let r := s.sym.markUsed name
    let s1 := { s with sym := r.1, errs := s.errs ++ r.2.toList }
    (some name, s1.pull, out)
  else if s.cur.kind = .FLOAT_LIT then
    let lit := s.cur.lexeme
    let r := s.newTemp
    (some r.1, r.2.pull, out ++ [mkLoadConst r.1 lit])
  else
    (none, s.report .SYNTAX "Expected identifier or float literal" s.cur.line s.cur.column, out)

theorem parseFactor_mu_le (s : GenState) (out : List TacInst) :
    ((TACGenerator.parseFactor s out).2.1).mu ≤ s.mu := by
  unfold TACGenerator.parseFactor
  split
  · exact GenState.mu_pull_le _
  · split
    · exact le_trans (GenState.mu_pull_le _) (le_of_eq (GenState.mu_newTemp s))
    · exact le_of_eq (GenState.mu_report s _ _ _ _)

/-- Release of consumed operands back into the temp pool (the two
`freeTemps.push` conditionals of the binary-fold loops). -/
def pushTemps (left right : String) (s : GenState) : GenState :=
  let s4 := if 0 < left.length ∧ headCharIs 't' left = true then { s with freeTemps := left :: s.freeTemps } else s
  if 0 < right.length ∧ headCharIs 't' right = true then { s4 with freeTemps := right :: s4.freeTemps } else s4

theorem pushTemps_mu (left right : String) (s : GenState) :
    (pushTemps left right s).mu = s.mu := by
  unfold pushTemps
  rw [GenState.mu_ite_freeTemps, GenState.mu_ite_freeTemps]

/-- The `while (cur.kind == STAR || cur.kind == SLASH)` loop of
`TACGenerator::parseTerm`, carrying the current left operand. -/
def TACGenerator.parseTermLoop (left : String) (s : GenState) (out : List TacInst) :
    Option String × GenState × List TacInst :=
  if h1 : s.cur.kind = .STAR ∨ s.cur.kind = .SLASH then
    match h2 : TACGenerator.parseFactor s.pull out with
    | (none, s2, out2) =>
      (none, s2.report .SYNTAX "Missing factor after operator" s2.cur.line s2.cur.column, out2)
    | (some right, s2, out2) =>
      TACGenerator.parseTermLoop s2.newTemp.1 (pushTemps left right s2.newTemp.2)
        (out2 ++ [mkBinary (if s.cur.kind = .STAR then .MUL else .DIV) s2.newTemp.1 left right])
  else (some left, s, out)
termination_by s.mu
decreasing_by
  have ha := parseFactor_mu_le s.pull out
  rw [h2] at ha
  have hb : s.pull.mu < s.mu := by
    refine s.mu_pull_lt ?_
    rcases h1 with h | h <;> simp [h]
  calc (pushTemps left right s2.newTemp.2).mu
      = s2.newTemp.2.mu := pushTemps_mu _ _ _
    _ = s2.mu := GenState.mu_newTemp s2
    _ ≤ s.pull.mu := ha
    _ < s.mu := hb

theorem parseTermLoop_mu_le (left : String) (s : GenState) (out : List TacInst) :
    ((TACGenerator.parseTermLoop left s out).2.1).mu ≤ s.mu := by
  induction left, s, out using TACGenerator.parseTermLoop.induct with
  | case1 left s out h1 s2 out2 h2 =>
    have ha := parseFactor_mu_le s.pull out
    rw [h2] at ha
    rw [TACGenerator.parseTermLoop, dif_pos h1, h2]
    calc (GenState.report s2 .SYNTAX "Missing factor after operator" s2.cur.line s2.cur.column).mu
        = s2.mu := GenState.mu_report _ _ _ _ _
      _ ≤ s.pull.mu := ha
      _ ≤ s.mu := GenState.mu_pull_le s
  | case2 left s out h1 right s2 out2 h2 ih =>
    have ha := parseFactor_mu_le s.pull out
    rw [h2] at ha
    rw [TACGenerator.parseTermLoop, dif_pos h1, h2]
    refine le_trans ih (le_trans (le_of_eq ?_) (le_trans ha (GenState.mu_pull_le s)))
    rw [pushTemps_mu, GenState.mu_newTemp]
  | case3 left s out h1 =>
    rw [TACGenerator.parseTermLoop, dif_neg h1]

/-- Model of `TACGenerator::parseTerm`. -/
def TACGenerator.parseTerm (s : GenState) (out : List TacInst) :
    Option String × GenState × List TacInst :=
  match TACGenerator.parseFactor s out with
  | (none, s1, out1) => (none, s1, out1)
  | (some left, s1, out1) => TACGenerator.parseTermLoop left s1 out1

theorem parseTerm_mu_le (s : GenState) (out : List TacInst) :
    ((TACGenerator.parseTerm s out).2.1).mu ≤ s.mu := by
  unfold TACGenerator.parseTerm
  have ha := parseFactor_mu_le s out
  rcases h : TACGenerator.parseFactor s out with ⟨res, s1, out1⟩
  rw [h] at ha
  cases res with
  | none => exact ha
  | some left => exact le_trans (parseTermLoop_mu_le left s1 out1) ha

/-- The `while (cur.kind == PLUS || cur.kind == MINUS)` loop of
`TACGenerator::parseExpression`, carrying the current left operand. -/
def TACGenerator.parseExprLoop (left : String) (s : GenState) (out : List TacInst) :
    Option String × GenState × List TacInst :=
  if h1 : s.cur.kind = .PLUS ∨ s.cur.kind = .MINUS then
    match h2 : TACGenerator.parseTerm s.pull out with
    | (none, s2, out2) =>
      (none, s2.report .SYNTAX "Missing term after operator" s2.cur.line s2.cur.column, out2)
    | (some right, s2, out2) =>
      TACGenerator.parseExprLoop s2.newTemp.1 (pushTemps left right s2.newTemp.2)
        (out2 ++ [mkBinary (if s.cur.kind = .PLUS then .ADD else .SUB) s2.newTemp.1 left right])
  else (some left, s, out)
termination_by s.mu
decreasing_by
  have ha := parseTerm_mu_le s.pull out
  rw [h2] at ha
  have hb : s.pull.mu < s.mu := by
    refine s.mu_pull_lt ?_
    rcases h1 with h | h <;> simp [h]
  calc (pushTemps left right s2.newTemp.2).mu
      = s2.newTemp.2.mu := pushTemps_mu _ _ _
    _ = s2.mu := GenState.mu_newTemp s2
    _ ≤ s.pull.mu := ha
    _ < s.mu := hb

theorem parseExprLoop_mu_le (left : String) (s : GenState) (out : List TacInst) :
    ((TACGenerator.parseExprLoop left s out).2.1).mu ≤ s.mu := by
  induction left, s, out using TACGenerator.parseExprLoop.induct with
  | case1 left s out h1 s2 out2 h2 =>
    have ha := parseTerm_mu_le s.pull out
    rw [h2] at ha
    rw [TACGenerator.parseExprLoop, dif_pos h1, h2]
    calc (GenState.report s2 .SYNTAX "Missing term after operator" s2.cur.line s2.cur.column).mu
        = s2.mu := GenState.mu_report _ _ _ _ _
      _ ≤ s.pull.mu := ha
      _ ≤ s.mu := GenState.mu_pull_le s
  | case2 left s out h1 right s2 out2 h2 ih =>
    have ha := parseTerm_mu_le s.pull out
    rw [h2] at ha
    rw [TACGenerator.parseExprLoop, dif_pos h1, h2]
    refine le_trans ih (le_trans (le_of_eq ?_) (le_trans ha (GenState.mu_pull_le s)))
    rw [pushTemps_mu, GenState.mu_newTemp]
  | case3 left s out h1 =>
    rw [TACGenerator.parseExprLoop, dif_neg h1]

/-- Model of `TACGenerator::parseExpression`. -/
def TACGenerator.parseExpression (s : GenState) (out : List TacInst) :
    Option String × GenState × List TacInst :=
  match TACGenerator.parseTerm s out with
  | (none, s1, out1) => (none, s1, out1)
  | (some left, s1, out1) => TACGenerator.parseExprLoop left s1 out1

theorem parseExpression_mu_le (s : GenState) (out : List TacInst) :
    ((TACGenerator.parseExpression s out).2.1).mu ≤ s.mu := by
  unfold TACGenerator.parseExpression
  have ha := parseTerm_mu_le s out
  rcases h : TACGenerator.parseTerm s out with ⟨res, s1, out1⟩
  rw [h] at ha
  cases res with
  | none => exact ha
  | some left => exact le_trans (parseExprLoop_mu_le left s1 out1) ha

/-- Semantic block of `TACGenerator::parseStatement` (lines 88-102 of
the generator): ensure the assignment target exists, promoting an
existing dummy entry or inserting a fresh concrete declaration. -/
def TACGenerator.declareLhs (s : GenState) (lhs : String) (lhsLine : Int) : GenState :=
  match s.sym.lookup lhs with
  | some entry =>
    if entry.is_dummy then
      let r := s.sym.updateEntry lhs (fun e =>
        { e with kind := "variable", type := "float", is_dummy := false, decl_line := lhsLine })
      { s with sym := r.1, errs := s.errs ++ r.2.2.toList }
    else s
  | none =>
    let r := s.sym.insert (mkEntry lhs "variable" "float" s.sym.currentScope lhsLine)
    { s with sym := r.1, errs := s.errs ++ r.2.2.toList }

theorem declareLhs_mu (s : GenState) (lhs : String) (lhsLine : Int) :
    (TACGenerator.declareLhs s lhs lhsLine).mu = s.mu := by
  unfold TACGenerator.declareLhs
  rcases s.sym.lookup lhs with _ | entry
  · rfl
  · by_cases h : entry.is_dummy <;> simp [h] <;> rfl

/-- Model of `TACGenerator::parseStatement`. -/
def TACGenerator.parseStatement (s : GenState) (out : List TacInst) :
    Bool × GenState × List TacInst :=
  if s.cur.kind = .IDENT then
    let lhs := s.cur.lexeme
    let lhsLine := s.cur.line
    let sA := s.pull
    if sA.cur.kind = .ASSIGN then
      let sB := sA.pull
      match TACGenerator.parseExpression sB out with
      | (none, sC, outC) =>
        (false, sC.report .SYNTAX "Invalid expression in assignment" sC.cur.line sC.cur.column, outC)
      | (some rhsName, sC, outC) =>
        if sC.cur.kind = .SEMICOLON then
          let sD := sC.pull
          let sE := TACGenerator.declareLhs sD lhs lhsLine
          let r := sE.sym.markUsed lhs
          (true, { sE with sym := r.1, errs := sE.errs ++ r.2.toList },
            outC ++ [mkAssign lhs rhsName])
        else
          (false, sC.report .SYNTAX "Missing semicolon at end of statement" sC.cur.line sC.cur.column, outC)
    else
      (false, sA.report .SYNTAX "Expected \x27=\x27 after identifier" sA.cur.line sA.cur.column, out)
  else
    (false, s.report .SYNTAX "Expected identifier at start of statement" s.cur.line s.cur.column, out)

theorem parseStatement_mu_lt (s : GenState) (out : List TacInst)
    (h : s.cur.kind = .IDENT) :
    ((TACGenerator.parseStatement s out).2.1).mu < s.mu := by
  unfold TACGenerator.parseStatement
  rw [if_pos h]
  have hpull : s.pull.mu < s.mu := s.mu_pull_lt (by rw [h]; intro hk; cases hk)
  by_cases h2 : s.pull.cur.kind = .ASSIGN
  · rw [if_pos h2]
    dsimp only
    have hex := parseExpression_mu_le s.pull.pull out
    have hpull2 : s.pull.pull.mu ≤ s.pull.mu := GenState.mu_pull_le s.pull
    rcases hE : TACGenerator.parseExpression s.pull.pull out with ⟨res, sC, outC⟩
    rw [hE] at hex
    simp only at hex
    have hC : sC.mu < s.mu := lt_of_le_of_lt (le_trans hex hpull2) hpull
    cases res with
    | none => simpa using hC
    | some rhsName =>
      simp only
      by_cases h3 : sC.cur.kind = .SEMICOLON
      · rw [if_pos h3]
        show GenState.mu { TACGenerator.declareLhs sC.pull s.cur.lexeme s.cur.line with
          sym := ((TACGenerator.declareLhs sC.pull s.cur.lexeme s.cur.line).sym.markUsed s.cur.lexeme).1
          errs := (TACGenerator.declareLhs sC.pull s.cur.lexeme s.cur.line).errs ++ ((TACGenerator.declareLhs sC.pull s.cur.lexeme s.cur.line).sym.markUsed s.cur.lexeme).2.toList } < s.mu
        calc GenState.mu { TACGenerator.declareLhs sC.pull s.cur.lexeme s.cur.line with
              sym := ((TACGenerator.declareLhs sC.pull s.cur.lexeme s.cur.line).sym.markUsed s.cur.lexeme).1
              errs := (TACGenerator.declareLhs sC.pull s.cur.lexeme s.cur.line).errs ++ ((TACGenerator.declareLhs sC.pull s.cur.lexeme s.cur.line).sym.markUsed s.cur.lexeme).2.toList }
            = (TACGenerator.declareLhs sC.pull s.cur.lexeme s.cur.line).mu := rfl
          _ = sC.pull.mu := declareLhs_mu _ _ _
          _ ≤ sC.mu := GenState.mu_pull_le sC
          _ < s.mu := hC
      · rw [if_neg h3]
        simpa using hC
  · rw [if_neg h2]
    simpa using hpull

theorem parseStatement_not_ident (s : GenState) (out : List TacInst)
    (h : ¬ s.cur.kind = .IDENT) :
    TACGenerator.parseStatement s out =
      (false, s.report .SYNTAX "Expected identifier at start of statement" s.cur.line s.cur.column, out) := by
  unfold TACGenerator.parseStatement
  rw [if_neg h]

/-- The error-recovery skip loop of `TACGenerator::parseProgram`:
advance until the lookahead is a semicolon or end of input. -/
def TACGenerator.skipToSemi (s : GenState) : GenState :=
  if h : ¬ s.cur.kind = .SEMICOLON ∧ ¬ s.cur.kind = .END_OF_FILE then
    TACGenerator.skipToSemi s.pull
  else s
termination_by s.mu
decreasing_by exact s.mu_pull_lt h.2

theorem skipToSemi_cur (s : GenState) :
    (TACGenerator.skipToSemi s).cur.kind = .SEMICOLON ∨
      (TACGenerator.skipToSemi s).cur.kind = .END_OF_FILE := by
  induction s using TACGenerator.skipToSemi.induct with
  | case1 s h ih => rw [TACGenerator.skipToSemi, dif_pos h]; exact ih
  | case2 s h =>
    rw [TACGenerator.skipToSemi, dif_neg h]
    by_cases h1 : s.cur.kind = .SEMICOLON
    · exact Or.inl h1
    · exact Or.inr (by tauto)

theorem skipToSemi_then_mu_lt (s : GenState) (h0 : ¬ s.cur.kind = .END_OF_FILE) :
    GenState.mu (if (TACGenerator.skipToSemi s).cur.kind = .SEMICOLON
      then (TACGenerator.skipToSemi s).pull else TACGenerator.skipToSemi s) < s.mu := by
  induction s using TACGenerator.skipToSemi.induct with
  | case1 s h ih =>
    rw [TACGenerator.skipToSemi, dif_pos h]
    by_cases h2 : s.pull.cur.kind = .END_OF_FILE
    · have hstop : TACGenerator.skipToSemi s.pull = s.pull := by
        rw [TACGenerator.skipToSemi, dif_neg (by tauto)]
      rw [hstop, if_neg (by rw [h2]; intro hk; cases hk)]
      exact s.mu_pull_lt h.2
    · exact lt_trans (ih h2) (s.mu_pull_lt h.2)
  | case2 s h =>
    rw [TACGenerator.skipToSemi, dif_neg h]
    have hsemi : s.cur.kind = .SEMICOLON := by tauto
    rw [if_pos hsemi]
    exact s.mu_pull_lt (by rw [hsemi]; intro hk; cases hk)

/-- The recovery block in `parseProgram`'s loop body: report the skip,
resynchronize to the next `;` (or EOF), and consume the `;` if found. -/
def TACGenerator.recoverState (s : GenState) : GenState :=
  let s1 := s.report .SYNTAX "Skipping to next \x27;\x27 on parse error" s.cur.line s.cur.column
  let s2 := TACGenerator.skipToSemi s1
  if s2.cur.kind = .SEMICOLON then s2.pull else s2

theorem recoverState_mu_lt (s : GenState) (h0 : ¬ s.cur.kind = .END_OF_FILE) :
    (TACGenerator.recoverState s).mu < s.mu := by
  unfold TACGenerator.recoverState
  exact skipToSemi_then_mu_lt _ h0

theorem recoverState_mu_le (s : GenState) :
    (TACGenerator.recoverState s).mu ≤ s.mu := by
  by_cases h0 : s.cur.kind = .END_OF_FILE
  · unfold TACGenerator.recoverState
    dsimp only
    have hstop : TACGenerator.skipToSemi
        (s.report .SYNTAX "Skipping to next \x27;\x27 on parse error" s.cur.line s.cur.column) =
        s.report .SYNTAX "Skipping to next \x27;\x27 on parse error" s.cur.line s.cur.column := by
      rw [TACGenerator.skipToSemi, dif_neg (by simp [GenState.report]; tauto)]
    rw [hstop]
    rw [if_neg (by simp only [GenState.report]; rw [h0]; intro hk; cases hk)]
    exact le_of_eq rfl
  · exact le_of_lt (recoverState_mu_lt s h0)

theorem parseStatement_mu_true (s : GenState) (out : List TacInst)
    (s1 : GenState) (out1 : List TacInst)
    (h1 : TACGenerator.parseStatement s out = (true, s1, out1)) : s1.mu < s.mu := by
  by_cases hid : s.cur.kind = .IDENT
  · have h2 := parseStatement_mu_lt s out hid
    rw [h1] at h2
    exact h2
  · rw [parseStatement_not_ident s out hid] at h1
    simp at h1

theorem parseStatement_mu_false (s : GenState) (out : List TacInst)
    (s1 : GenState) (out1 : List TacInst) (h0 : ¬ s.cur.kind = .END_OF_FILE)
    (h1 : TACGenerator.parseStatement s out = (false, s1, out1)) :
    (TACGenerator.recoverState s1).mu < s.mu := by
  by_cases hid : s.cur.kind = .IDENT
  · have h2 := parseStatement_mu_lt s out hid
    rw [h1] at h2
    exact lt_of_le_of_lt (recoverState_mu_le s1) h2
  · rw [parseStatement_not_ident s out hid] at h1
    have h1a : s.report .SYNTAX "Expected identifier at start of statement" s.cur.line s.cur.column = s1 := by
      simpa using congrArg (fun p => p.2.1) h1
    rw [← h1a]
    exact recoverState_mu_lt _ h0

/-- Model of `TACGenerator::parseProgram`: parse statements until the
EOF lookahead, recovering to the next `;` after a failed statement. -/
def TACGenerator.parseProgram (s : GenState) (out : List TacInst) :
    Bool × GenState × List TacInst :=
  if h0 : s.cur.kind = .END_OF_FILE then (true, s, out)
  else
    match h1 : TACGenerator.parseStatement s out with
    | (true, s1, out1) => TACGenerator.parseProgram s1 out1
    | (false, s1, out1) => TACGenerator.parseProgram (TACGenerator.recoverState s1) out1
termination_by s.mu
decreasing_by
  · exact parseStatement_mu_true s out s1 out1 h1
  · exact parseStatement_mu_false s out s1 out1 h0 h1

/-- Model of `TACGenerator::generate`. -/
def TACGenerator.generate (s : GenState) (out : List TacInst) :
    Bool × GenState × List TacInst :=
  TACGenerator.parseProgram s out

/-- The `TACGenerator` constructor: store the collaborators, set
`tempCounter = 0`, and read the first lookahead token. -/
def initGenState (stream : List (Token × Option CompilerError)) (sym : SymbolTable) :
    GenState :=
  GenState.pull ⟨stream, eofToken, sym, [], 0, []⟩

/-- End-to-end run of the streaming pipeline on a source string: a
fresh symbol table and error handler, the streaming lexer, and one
`generate` call.  This is the compiler core the spec delimits (the
driver additionally runs the excluded validation-only parser phase
before TAC generation). -/
def runGenerate (source : String) : Bool × GenState × List TacInst :=
  TACGenerator.generate (initGenState (tokenize source) SymbolTable.init) []

/-! ## Dead code eliminator (`dce.h` and its translation unit) -/

/-- Model of the file-local `usesOf` helper: the operand names an
instruction reads, skipping empty operand slots. -/
def usesOf (i : TacInst) : List String :=
  match i.op with
  | .LOAD_CONST => []
  | .ASSIGN => if ¬ i.arg1 = "" then [i.arg1] else []
  | .ADD | .SUB | .MUL | .DIV =>
      (if ¬ i.arg1 = "" then [i.arg1] else []) ++ (if ¬ i.arg2 = "" then [i.arg2] else [])
  | .NOP => []

/-- The `live.insert(u)` loop over `usesOf(inst)` in the keep branch
(with its redundant non-emptiness re-check). -/
def addUses (i : TacInst) (live : Finset String) : Finset String :=
  (usesOf i).foldl (fun acc u => if ¬ u = "" then insert u acc else acc) live

/-- The `declared` set: every non-empty destination in the sequence
whose first character is not `t` (`inst.dest[0] != 't'`). -/
def declaredNames (tac : List TacInst) : Finset String :=
  tac.foldl
    (fun acc i => if ¬ i.dest = "" ∧ headCharIs 't' i.dest = false then insert i.dest acc else acc)
    ∅

/-- The `unusedSet`: names of the symbol table's unused-entries
report. -/
def unusedNames (sym : SymbolTable) : Finset String :=
  (sym.getUnusedEntries).foldl (fun acc e => insert e.name acc) ∅

/-- The initial live set: declared names not present in the unused
set (the seeding loop of `DeadCodeEliminator::eliminate`). -/
def dceSeed (tac : List TacInst) (sym : SymbolTable) : Finset String :=
  declaredNames tac \ unusedNames sym

/-- The backward traversal of `DeadCodeEliminator::eliminate`,
computing the `keep` flag for every instruction (in instruction
order) together with the final live set.  The head of the list is
processed last, exactly as the `for (i = size-1; i >= 0; --i)` loop
visits it last. -/
def dceScan : List TacInst → Finset String → List Bool × Finset String
  | [], live => ([], live)
  | i :: rest, live =>
    let r := dceScan rest live
    if ¬ i.dest = "" ∧ i.dest ∈ r.2 then (true :: r.1, addUses i r.2)
    else (false :: r.1, r.2)

/-- The reconstruction loop: keep exactly the flagged instructions,
in their original relative order. -/
def keepFiltered : List TacInst → List Bool → List TacInst
  | i :: tac, b :: flags =>
      if b then i :: keepFiltered tac flags else keepFiltered tac flags
  | _, _ => []

/-- Model of `DeadCodeEliminator::eliminate` (returning the new
vector that the C++ code swaps into `tac`). -/
def DeadCodeEliminator.eliminate (tac : List TacInst) (sym : SymbolTable) : List TacInst :=
  keepFiltered tac (dceScan tac (dceSeed tac sym)).1

/-! ### Specification-side description of the eliminator (spec §4.3),
used to check claim C2: seed with every named (non-temporary)
destination occurring anywhere in the sequence that is not in the
unused-entries report; scan last to first keeping an instruction
exactly when its destination is live, then adding the names it reads;
return kept instructions in original relative order. -/

/-- Names a TAC instruction reads, per the spec's table: LoadConstant
none, Assign one, binary operations two (absent operands are the
empty string and are not names). -/
def readsOf (i : TacInst) : Finset String :=
  match i.op with
  | .LOAD_CONST => ∅
  | .ASSIGN => if i.arg1 = "" then ∅ else {i.arg1}
  | .ADD | .SUB | .MUL | .DIV =>
      (if i.arg1 = "" then ∅ else {i.arg1}) ∪ (if i.arg2 = "" then ∅ else {i.arg2})
  | .NOP => ∅

/-- Spec-side seed: named (non-temporary) destinations appearing
anywhere in the sequence, minus the unused-entries report. -/
def specSeed (tac : List TacInst) (sym : SymbolTable) : Finset String :=
  ((tac.map TacInst.dest).filter
    (fun d => !(d == "") && !(headCharIs 't' d) &&
      !((sym.getUnusedEntries).map SymbolEntry.name).contains d)).toFinset

/-- Spec-side backward scan: keep an instruction exactly when its
destination is in the live set at that point, then add the names it
reads. -/
def specScan : List TacInst → Finset String → List TacInst × Finset String
  | [], live => ([], live)
  | i :: rest, live =>
    let r := specScan rest live
    if i.dest ∈ r.2 then (i :: r.1, readsOf i ∪ r.2) else r

/-- Spec-side elimination: the kept instructions of the backward
scan started from the spec-side seed. -/
def eliminateSpec (tac : List TacInst) (sym : SymbolTable) : List TacInst :=
  (specScan tac (specSeed tac sym)).1

/-! ## Fuel-indexed executable twins of the parsing loops

The loop functions above are defined by well-founded recursion on the
token measure and therefore do not reduce inside the kernel.  The
following structurally recursive twins compute the same results for
any fuel above the measure (proved below) and are used to evaluate
the model on concrete programs. -/

def TACGenerator.parseTermLoopF : Nat → String → GenState → List TacInst →
    Option String × GenState × List TacInst
  | 0, left, s, out => (some left, s, out)
  | fuel + 1, left, s, out =>
    if s.cur.kind = .STAR ∨ s.cur.kind = .SLASH then
      match TACGenerator.parseFactor s.pull out with
      | (none, s2, out2) =>
        (none, s2.report .SYNTAX "Missing factor after operator" s2.cur.line s2.cur.column, out2)
      | (some right, s2, out2) =>
        TACGenerator.parseTermLoopF fuel s2.newTemp.1 (pushTemps left right s2.newTemp.2)
          (out2 ++ [mkBinary (if s.cur.kind = .STAR then .MUL else .DIV) s2.newTemp.1 left right])
    else (some left, s, out)

theorem parseTermLoopF_eq (fuel : Nat) :
    ∀ (left : String) (s : GenState) (out : List TacInst), s.mu < fuel →
      TACGenerator.parseTermLoopF fuel left s out = TACGenerator.parseTermLoop left s out := by
  induction fuel with
  | zero => intro left s out h; omega
  | succ fuel ih =>
    intro left s out h
    rw [TACGenerator.parseTermLoop, TACGenerator.parseTermLoopF]
    by_cases h1 : s.cur.kind = .STAR ∨ s.cur.kind = .SLASH
    · rw [dif_pos h1, if_pos h1]
      have hp : s.pull.mu < s.mu := s.mu_pull_lt (by rcases h1 with h2 | h2 <;> simp [h2])
      have hf := parseFactor_mu_le s.pull out
      rcases hE : TACGenerator.parseFactor s.pull out with ⟨res, s2, out2⟩
      rw [hE] at hf
      cases res with
      | none => rfl
      | some right =>
        refine ih _ _ _ ?_
        rw [pushTemps_mu, GenState.mu_newTemp]
        simp only at hf
        omega
    · rw [dif_neg h1, if_neg h1]

def TACGenerator.parseTermF (fuel : Nat) (s : GenState) (out : List TacInst) :
    Option String × GenState × List TacInst :=
  match TACGenerator.parseFactor s out with
  | (none, s1, out1) => (none, s1, out1)
  | (some left, s1, out1) => TACGenerator.parseTermLoopF fuel left s1 out1

theorem parseTermF_eq (fuel : Nat) (s : GenState) (out : List TacInst) (h : s.mu < fuel) :
    TACGenerator.parseTermF fuel s out = TACGenerator.parseTerm s out := by
  rw [TACGenerator.parseTermF, TACGenerator.parseTerm]
  have hf := parseFactor_mu_le s out
  rcases hE : TACGenerator.parseFactor s out with ⟨res, s1, out1⟩
  rw [hE] at hf
  cases res with
  | none => rfl
  | some left =>
    simp only at hf
    exact parseTermLoopF_eq fuel left s1 out1 (by omega)

def TACGenerator.parseExprLoopF : Nat → String → GenState → List TacInst →
    Option String × GenState × List TacInst
  | 0, left, s, out => (some left, s, out)
  | fuel + 1, left, s, out =>
    if s.cur.kind = .PLUS ∨ s.cur.kind = .MINUS then
      match TACGenerator.parseTermF fuel s.pull out with
      | (none, s2, out2) =>
        (none, s2.report .SYNTAX "Missing term after operator" s2.cur.line s2.cur.column, out2)
      | (some right, s2, out2) =>
        TACGenerator.parseExprLoopF fuel s2.newTemp.1 (pushTemps left right s2.newTemp.2)
          (out2 ++ [mkBinary (if s.cur.kind = .PLUS then .ADD else .SUB) s2.newTemp.1 left right])
    else (some left, s, out)

theorem parseExprLoopF_eq (fuel : Nat) :
    ∀ (left : String) (s : GenState) (out : List TacInst), s.mu < fuel →
      TACGenerator.parseExprLoopF fuel left s out = TACGenerator.parseExprLoop left s out := by
  induction fuel with
  | zero => intro left s out h; omega
  | succ fuel ih =>
    intro left s out h
    rw [TACGenerator.parseExprLoop, TACGenerator.parseExprLoopF]
    by_cases h1 : s.cur.kind = .PLUS ∨ s.cur.kind = .MINUS
    · rw [dif_pos h1, if_pos h1]
      have hp : s.pull.mu < s.mu := s.mu_pull_lt (by rcases h1 with h2 | h2 <;> simp [h2])
      rw [parseTermF_eq fuel s.pull out (by omega)]
      have hf := parseTerm_mu_le s.pull out
      rcases hE : TACGenerator.parseTerm s.pull out with ⟨res, s2, out2⟩
      rw [hE] at hf
      cases res with
      | none => rfl
      | some right =>
        refine ih _ _ _ ?_
        rw [pushTemps_mu, GenState.mu_newTemp]
        simp only at hf
        omega
    · rw [dif_neg h1, if_neg h1]

def TACGenerator.parseExpressionF (fuel : Nat) (s : GenState) (out : List TacInst) :
    Option String × GenState × List TacInst :=
  match TACGenerator.parseFactor s out with
  | (none, s1, out1) => (none, s1, out1)
  | (some left, s1, out1) =>
    match TACGenerator.parseTermLoopF fuel left s1 out1 with
    | (none, s2, out2) => (none, s2, out2)
    | (some left2, s2, out2) => TACGenerator.parseExprLoopF fuel left2 s2 out2

theorem parseExpressionF_eq (fuel : Nat) (s : GenState) (out : List TacInst)
    (h : s.mu < fuel) :
    TACGenerator.parseExpressionF fuel s out = TACGenerator.parseExpression s out := by
  rw [TACGenerator.parseExpressionF, TACGenerator.parseExpression, TACGenerator.parseTerm]
  have hf := parseFactor_mu_le s out
  rcases hE : TACGenerator.parseFactor s out with ⟨res, s1, out1⟩
  rw [hE] at hf
  cases res with
  | none => rfl
  | some left =>
    simp only at hf
    dsimp only
    rw [parseTermLoopF_eq fuel left s1 out1 (by omega)]
    have hl := parseTermLoop_mu_le left s1 out1
    rcases hL : TACGenerator.parseTermLoop left s1 out1 with ⟨res2, s2, out2⟩
    rw [hL] at hl
    cases res2 with
    | none => rfl
    | some left2 =>
      simp only at hl
      exact parseExprLoopF_eq fuel left2 s2 out2 (by omega)

def TACGenerator.parseStatementF (fuel : Nat) (s : GenState) (out : List TacInst) :
    Bool × GenState × List TacInst :=
  if s.cur.kind = .IDENT then
    let lhs := s.cur.lexeme
    let lhsLine := s.cur.line
    let sA := s.pull
    if sA.cur.kind = .ASSIGN then
      let sB := sA.pull
      match TACGenerator.parseExpressionF fuel sB out with
      | (none, sC, outC) =>
        (false, sC.report .SYNTAX "Invalid expression in assignment" sC.cur.line sC.cur.column, outC)
      | (some rhsName, sC, outC) =>
        if sC.cur.kind = .SEMICOLON then
          let sD := sC.pull
          let sE := TACGenerator.declareLhs sD lhs lhsLine
          let r := sE.sym.markUsed lhs
          (true, { sE with sym := r.1, errs := sE.errs ++ r.2.toList },
            outC ++ [mkAssign lhs rhsName])
        else
          (false, sC.report .SYNTAX "Missing semicolon at end of statement" sC.cur.line sC.cur.column, outC)
    else
      (false, sA.report .SYNTAX "Expected \x27=\x27 after identifier" sA.cur.line sA.cur.column, out)
  else
    (false, s.report .SYNTAX "Expected identifier at start of statement" s.cur.line s.cur.column, out)

theorem parseStatementF_eq (fuel : Nat) (s : GenState) (out : List TacInst)
    (h : s.mu < fuel) :
    TACGenerator.parseStatementF fuel s out = TACGenerator.parseStatement s out := by
  rw [TACGenerator.parseStatementF, TACGenerator.parseStatement]
  by_cases h1 : s.cur.kind = .IDENT
  · rw [if_pos h1, if_pos h1]
    dsimp only
    by_cases h2 : s.pull.cur.kind = .ASSIGN
    · rw [if_pos h2, if_pos h2]
      have hp : s.pull.pull.mu < s.mu :=
        lt_of_le_of_lt (GenState.mu_pull_le s.pull)
          (s.mu_pull_lt (by rw [h1]; intro hk; cases hk))
      rw [parseExpressionF_eq fuel s.pull.pull out (by omega)]
    · rw [if_neg h2, if_neg h2]
  · rw [if_neg h1, if_neg h1]

def TACGenerator.skipToSemiF : Nat → GenState → GenState
  | 0, s => s
  | fuel + 1, s =>
    if ¬ s.cur.kind = .SEMICOLON ∧ ¬ s.cur.kind = .END_OF_FILE then
      TACGenerator.skipToSemiF fuel s.pull
    else s

theorem skipToSemiF_eq (fuel : Nat) : ∀ (s : GenState), s.mu < fuel →
    TACGenerator.skipToSemiF fuel s = TACGenerator.skipToSemi s := by
  induction fuel with
  | zero => intro s h; omega
  | succ fuel ih =>
    intro s h
    rw [TACGenerator.skipToSemiF, TACGenerator.skipToSemi]
    by_cases h1 : ¬ s.cur.kind = .SEMICOLON ∧ ¬ s.cur.kind = .END_OF_FILE
    · rw [dif_pos h1, if_pos h1]
      have hp : s.pull.mu < s.mu := s.mu_pull_lt h1.2
      exact ih s.pull (by omega)
    · rw [dif_neg h1, if_neg h1]

def TACGenerator.recoverStateF (fuel : Nat) (s : GenState) : GenState :=
  let s1 := s.report .SYNTAX "Skipping to next \x27;\x27 on parse error" s.cur.line s.cur.column
  let s2 := TACGenerator.skipToSemiF fuel s1
  if s2.cur.kind = .SEMICOLON then s2.pull else s2

theorem recoverStateF_eq (fuel : Nat) (s : GenState) (h : s.mu < fuel) :
    TACGenerator.recoverStateF fuel s = TACGenerator.recoverState s := by
  rw [TACGenerator.recoverStateF, TACGenerator.recoverState]
  rw [skipToSemiF_eq fuel
    (s.report .SYNTAX "Skipping to next \x27;\x27 on parse error" s.cur.line s.cur.column) h]

def TACGenerator.parseProgramF : Nat → GenState → List TacInst →
    Bool × GenState × List TacInst
  | 0, s, out => (true, s, out)
  | fuel + 1, s, out =>
    if s.cur.kind = .END_OF_FILE then (true, s, out)
    else
      match TACGenerator.parseStatementF (fuel + 1) s out with
      | (true, s1, out1) => TACGenerator.parseProgramF fuel s1 out1
      | (false, s1, out1) =>
        TACGenerator.parseProgramF fuel (TACGenerator.recoverStateF (fuel + 1) s1) out1

theorem parseProgramF_eq (fuel : Nat) : ∀ (s : GenState) (out : List TacInst), s.mu < fuel →
    TACGenerator.parseProgramF fuel s out = TACGenerator.parseProgram s out := by
  induction fuel with
  | zero => intro s out h; omega
  | succ fuel ih =>
    intro s out h
    rw [TACGenerator.parseProgramF, TACGenerator.parseProgram]
    by_cases h0 : s.cur.kind = .END_OF_FILE
    · rw [if_pos h0, dif_pos h0]
    · rw [if_neg h0, dif_neg h0]
      rw [parseStatementF_eq (fuel + 1) s out h]
      rcases hE : TACGenerator.parseStatement s out with ⟨b, s1, out1⟩
      cases b with
      | true =>
        have hlt := parseStatement_mu_true s out s1 out1 hE
        dsimp only
        exact ih s1 out1 (by omega)
      | false =>
        have hle : s1.mu ≤ s.mu := by
          by_cases hid : s.cur.kind = .IDENT
          · have h2 := parseStatement_mu_lt s out hid
            rw [hE] at h2
            exact le_of_lt h2
          · rw [parseStatement_not_ident s out hid] at hE
            have h1a : s.report .SYNTAX "Expected identifier at start of statement" s.cur.line s.cur.column = s1 := by
              simpa using congrArg (fun p => p.2.1) hE
            rw [← h1a]
            exact le_of_eq rfl
        have hrec := parseStatement_mu_false s out s1 out1 h0 hE
        dsimp only
        rw [recoverStateF_eq (fuel + 1) s1 (by omega)]
        exact ih (TACGenerator.recoverState s1) out1 (by omega)

/-- Executable form of `runGenerate`: the same pipeline evaluated
through the fuel twins, with fuel one above the token measure. -/
def runGenerateF (source : String) : Bool × GenState × List TacInst :=
  TACGenerator.parseProgramF ((initGenState (tokenize source) SymbolTable.init).mu + 1)
    (initGenState (tokenize source) SymbolTable.init) []

theorem runGenerate_eq (source : String) : runGenerate source = runGenerateF source := by
  rw [runGenerate, runGenerateF, TACGenerator.generate]
  exact (parseProgramF_eq _ _ _ (by omega)).symm

/-! ## Dead-code eliminator lemmas -/

theorem mem_declaredNames_aux (tac : List TacInst) (acc : Finset String) (d : String) :
    d ∈ tac.foldl
        (fun acc i => if ¬ i.dest = "" ∧ headCharIs 't' i.dest = false then insert i.dest acc else acc)
        acc ↔
      d ∈ acc ∨ (d ∈ tac.map TacInst.dest ∧ ¬ d = "" ∧ headCharIs 't' d = false) := by
  induction tac generalizing acc with
  | nil => simp
  | cons j rest ih =>
    simp only [List.foldl_cons, List.map_cons, List.mem_cons]
    rw [ih]
    by_cases hj : ¬ j.dest = "" ∧ headCharIs 't' j.dest = false
    · rw [if_pos hj]
      simp only [Finset.mem_insert]
      constructor
      · rintro ((rfl | hd) | hrest)
        · exact Or.inr ⟨Or.inl rfl, hj⟩
        · exact Or.inl hd
        · exact Or.inr ⟨Or.inr hrest.1, hrest.2⟩
      · rintro (hd | ⟨rfl | hm, hcond⟩)
        · exact Or.inl (Or.inr hd)
        · exact Or.inl (Or.inl rfl)
        · exact Or.inr ⟨hm, hcond⟩
    · rw [if_neg hj]
      constructor
      · rintro (hd | hrest)
        · exact Or.inl hd
        · exact Or.inr ⟨Or.inr hrest.1, hrest.2⟩
      · rintro (hd | ⟨rfl | hm, hcond⟩)
        · exact Or.inl hd
        · exact absurd hcond hj
        · exact Or.inr ⟨hm, hcond⟩

theorem mem_declaredNames (tac : List TacInst) (d : String) :
    d ∈ declaredNames tac ↔
      d ∈ tac.map TacInst.dest ∧ ¬ d = "" ∧ headCharIs 't' d = false := by
  rw [declaredNames, mem_declaredNames_aux]
  simp

theorem mem_unusedNames_aux (l : List SymbolEntry) (acc : Finset String) (d : String) :
    d ∈ l.foldl (fun acc e => insert e.name acc) acc ↔
      d ∈ acc ∨ d ∈ l.map SymbolEntry.name := by
  induction l generalizing acc with
  | nil => simp
  | cons e rest ih =>
    simp only [List.foldl_cons, List.map_cons, List.mem_cons]
    rw [ih]
    simp only [Finset.mem_insert]
    tauto

theorem mem_unusedNames (sym : SymbolTable) (d : String) :
    d ∈ unusedNames sym ↔ d ∈ (sym.getUnusedEntries).map SymbolEntry.name := by
  rw [unusedNames, mem_unusedNames_aux]
  simp

theorem empty_not_mem_dceSeed (tac : List TacInst) (sym : SymbolTable) :
    "" ∉ dceSeed tac sym := by
  intro h
  rw [dceSeed, Finset.mem_sdiff, mem_declaredNames] at h
  exact h.1.2.1 rfl

theorem tmp_not_mem_dceSeed (tac : List TacInst) (sym : SymbolTable) (d : String)
    (h : headCharIs 't' d = true) : d ∉ dceSeed tac sym := by
  intro hm
  rw [dceSeed, Finset.mem_sdiff, mem_declaredNames] at hm
  rw [h] at hm
  exact absurd hm.1.2.2 (by simp)

theorem empty_not_mem_readsOf (i : TacInst) : "" ∉ readsOf i := by
  rw [readsOf]
  rcases i with ⟨op, dest, arg1, arg2, lit⟩
  cases op <;> simp <;> split <;> try split
  all_goals simp_all [eq_comm]

theorem addUses_binary (arg1 arg2 : String) (live : Finset String) :
    List.foldl (fun acc u => if ¬ u = "" then insert u acc else acc) live
      ((if ¬ arg1 = "" then [arg1] else []) ++ (if ¬ arg2 = "" then [arg2] else [])) =
    ((if arg1 = "" then ∅ else {arg1}) ∪ (if arg2 = "" then ∅ else {arg2})) ∪ live := by
  by_cases h1 : arg1 = "" <;> by_cases h2 : arg2 = "" <;> simp [h1, h2] <;> ext x <;>
    simp only [Finset.mem_insert, Finset.mem_union, Finset.mem_singleton] <;> tauto

theorem addUses_eq_readsOf (i : TacInst) (live : Finset String) :
    addUses i live = readsOf i ∪ live := by
  rw [addUses, usesOf, readsOf]
  rcases i with ⟨op, dest, arg1, arg2, lit⟩
  cases op
  case LOAD_CONST => simp
  case NOP => simp
  case ASSIGN =>
    by_cases h1 : arg1 = "" <;> simp [h1] <;> ext x <;>
      simp only [Finset.mem_insert, Finset.mem_union, Finset.mem_singleton] <;> tauto
  case ADD => exact addUses_binary arg1 arg2 live
  case SUB => exact addUses_binary arg1 arg2 live
  case MUL => exact addUses_binary arg1 arg2 live
  case DIV => exact addUses_binary arg1 arg2 live

theorem subset_addUses (i : TacInst) (live : Finset String) :
    live ⊆ addUses i live := by
  rw [addUses_eq_readsOf]
  exact Finset.subset_union_right

theorem dceScan_grow (tac : List TacInst) (live : Finset String) :
    live ⊆ (dceScan tac live).2 := by
  induction tac with
  | nil => rw [dceScan]
  | cons i rest ih =>
    rw [dceScan]
    split
    · exact le_trans ih (subset_addUses i _)
    · exact ih

theorem dceScan_length (tac : List TacInst) (live : Finset String) :
    (dceScan tac live).1.length = tac.length := by
  induction tac with
  | nil => rfl
  | cons i rest ih =>
    rw [dceScan]
    split <;> simpa using ih

theorem empty_not_mem_dceScan (tac : List TacInst) (live : Finset String)
    (h : "" ∉ live) : "" ∉ (dceScan tac live).2 := by
  induction tac with
  | nil => exact h
  | cons i rest ih =>
    rw [dceScan]
    split
    · rw [addUses_eq_readsOf, Finset.mem_union]
      rintro (hc | hc)
      · exact empty_not_mem_readsOf i hc
      · exact ih hc
    · exact ih

theorem specSeed_eq_dceSeed (tac : List TacInst) (sym : SymbolTable) :
    specSeed tac sym = dceSeed tac sym := by
  ext d
  rw [specSeed, dceSeed, Finset.mem_sdiff, mem_declaredNames, mem_unusedNames,
    List.mem_toFinset, List.mem_filter]
  simp only [Bool.and_eq_true, Bool.not_eq_true', beq_eq_false_iff_ne, ne_eq,
    Bool.not_eq_true, List.contains, List.elem_eq_mem, decide_eq_false_iff_not,
    decide_eq_true_eq]
  tauto

theorem specScan_eq_dceScan (tac : List TacInst) (live : Finset String)
    (hnz : "" ∉ live) :
    (specScan tac live).1 = keepFiltered tac (dceScan tac live).1 ∧
      (specScan tac live).2 = (dceScan tac live).2 := by
  induction tac with
  | nil => exact ⟨rfl, rfl⟩
  | cons i rest ih =>
    obtain ⟨ih1, ih2⟩ := ih
    have hz := empty_not_mem_dceScan rest live hnz
    rw [specScan, dceScan]
    by_cases hd : ¬ i.dest = "" ∧ i.dest ∈ (dceScan rest live).2
    · rw [if_pos hd]
      rw [if_pos (by rw [ih2]; exact hd.2)]
      constructor
      · show i :: (specScan rest live).1 =
          keepFiltered (i :: rest) (true :: (dceScan rest live).1)
        rw [keepFiltered, if_pos rfl, ih1]
      · show readsOf i ∪ (specScan rest live).2 = addUses i (dceScan rest live).2
        rw [ih2, addUses_eq_readsOf]
    · rw [if_neg hd]
      have hnot : i.dest ∉ (specScan rest live).2 := by
        rw [ih2]
        by_cases hde : i.dest = ""
        · rw [hde]; exact hz
        · intro hmem; exact hd ⟨hde, hmem⟩
      rw [if_neg hnot]
      constructor
      · show (specScan rest live).1 =
          keepFiltered (i :: rest) (false :: (dceScan rest live).1)
        rw [keepFiltered, if_neg (by simp), ih1]
      · exact ih2

/-- Kept instructions are a sublist of the input (membership form). -/
theorem mem_keepFiltered (tac : List TacInst) (flags : List Bool) (i : TacInst)
    (h : i ∈ keepFiltered tac flags) : i ∈ tac := by
  induction tac generalizing flags with
  | nil => rw [keepFiltered.eq_def] at h; rcases flags <;> simp at h
  | cons j rest ih =>
    rcases flags with _ | ⟨b, flags⟩
    · rw [keepFiltered.eq_def] at h; simp at h
    · rw [keepFiltered] at h
      rcases b with _ | _
      · rw [if_neg (by simp)] at h
        exact List.mem_cons_of_mem j (ih flags h)
      · rw [if_pos rfl] at h
        rcases List.mem_cons.mp h with rfl | hm
        · exact List.mem_cons_self i rest
        · exact List.mem_cons_of_mem j (ih flags hm)

/-- Every instruction whose destination is in the seed is kept: the
live set starts at the seed and only grows during the scan. -/
theorem keep_of_dest_in_seed (tac : List TacInst) (S : Finset String) (i : TacInst)
    (hm : i ∈ tac) (hdz : ¬ i.dest = "") (hdS : i.dest ∈ S) :
    i ∈ keepFiltered tac (dceScan tac S).1 := by
  induction tac with
  | nil => cases hm
  | cons j rest ih =>
    rw [dceScan]
    rcases List.mem_cons.mp hm with rfl | hmr
    · rw [if_pos ⟨hdz, dceScan_grow rest S hdS⟩]
      rw [keepFiltered, if_pos rfl]
      exact List.mem_cons_self i _
    · by_cases hj : ¬ j.dest = "" ∧ j.dest ∈ (dceScan rest S).2
      · rw [if_pos hj, keepFiltered, if_pos rfl]
        exact List.mem_cons_of_mem j (ih hmr)
      · rw [if_neg hj, keepFiltered, if_neg (by simp)]
        exact ih hmr

theorem dceSeed_eliminate_eq (tac : List TacInst) (sym : SymbolTable) :
    dceSeed (DeadCodeEliminator.eliminate tac sym) sym = dceSeed tac sym := by
  ext d
  rw [dceSeed, dceSeed, Finset.mem_sdiff, Finset.mem_sdiff,
    mem_declaredNames, mem_declaredNames]
  constructor
  · rintro ⟨⟨hmap, hcond⟩, hun⟩
    obtain ⟨i, hi, hd⟩ := List.mem_map.mp hmap
    exact ⟨⟨List.mem_map.mpr ⟨i, mem_keepFiltered _ _ i hi, hd⟩, hcond⟩, hun⟩
  · rintro ⟨⟨hmap, hcond⟩, hun⟩
    obtain ⟨i, hi, hd⟩ := List.mem_map.mp hmap
    have hkeep : i ∈ keepFiltered tac (dceScan tac (dceSeed tac sym)).1 := by
      refine keep_of_dest_in_seed tac _ i hi (by rw [hd]; exact hcond.1) ?_
      rw [hd, dceSeed, Finset.mem_sdiff, mem_declaredNames]
      exact ⟨⟨hmap, hcond⟩, hun⟩
    exact ⟨⟨List.mem_map.mpr ⟨i, hkeep, hd⟩, hcond⟩, hun⟩

/-- Rescanning the kept instructions with a live seed at least as
large keeps every one of them and reaches a live set at least as
large. -/
theorem dceScan_kept_all (tac : List TacInst) (S T : Finset String) (hST : S ⊆ T) :
    (dceScan (keepFiltered tac (dceScan tac S).1) T).1 =
        List.replicate (keepFiltered tac (dceScan tac S).1).length true ∧
      (dceScan tac S).2 ⊆ (dceScan (keepFiltered tac (dceScan tac S).1) T).2 := by
  induction tac with
  | nil =>
    constructor
    · rfl
    · exact le_trans hST (dceScan_grow _ T)
  | cons i rest ih =>
    obtain ⟨ih1, ih2⟩ := ih
    rw [dceScan]
    by_cases hd : ¬ i.dest = "" ∧ i.dest ∈ (dceScan rest S).2
    · rw [if_pos hd]
      show (dceScan (keepFiltered (i :: rest) (true :: (dceScan rest S).1)) T).1 = _ ∧ _
      rw [keepFiltered, if_pos rfl]
      rw [dceScan]
      rw [if_pos ⟨hd.1, ih2 hd.2⟩]
      constructor
      · rw [ih1]
        rfl
      · show addUses i (dceScan rest S).2 ⊆ addUses i (dceScan _ T).2
        rw [addUses_eq_readsOf, addUses_eq_readsOf]
        exact Finset.union_subset_union_right ih2
    · rw [if_neg hd]
      show (dceScan (keepFiltered (i :: rest) (false :: (dceScan rest S).1)) T).1 = _ ∧ _
      rw [keepFiltered, if_neg (by simp)]
      exact ⟨ih1, ih2⟩

theorem keepFiltered_replicate_true (l : List TacInst) :
    keepFiltered l (List.replicate l.length true) = l := by
  induction l with
  | nil => rfl
  | cons i rest ih =>
    rw [List.length_cons, List.replicate_succ, keepFiltered, if_pos rfl, ih]

/-- The C++ `TacInst()` default constructor: a NOP with empty
operand strings. -/
def defaultInst : TacInst := ⟨.NOP, "", "", "", ""⟩

theorem dceScan_flags_cons (i : TacInst) (rest : List TacInst) (S : Finset String) :
    (dceScan (i :: rest) S).1 =
      (if ¬ i.dest = "" ∧ i.dest ∈ (dceScan rest S).2 then true else false) ::
        (dceScan rest S).1 := by
  by_cases hd : ¬ i.dest = "" ∧ i.dest ∈ (dceScan rest S).2
  · rw [dceScan, if_pos hd, if_pos hd]
  · rw [dceScan, if_neg hd, if_neg hd]

theorem dceScan_flag_getD (tac : List TacInst) (S : Finset String) :
    ∀ j, j < tac.length →
      ((dceScan tac S).1.getD j false = true ↔
        (¬ (tac.getD j defaultInst).dest = "" ∧
          (tac.getD j defaultInst).dest ∈ (dceScan (tac.drop (j + 1)) S).2)) := by
  induction tac with
  | nil => intro j h; simp at h
  | cons i rest ih =>
    intro j hj
    rw [dceScan_flags_cons]
    cases j with
    | zero =>
      rw [List.getD_cons_zero, List.getD_cons_zero, List.drop_succ_cons, List.drop_zero]
      by_cases hd : ¬ i.dest = "" ∧ i.dest ∈ (dceScan rest S).2
      · rw [if_pos hd]
        exact ⟨fun _ => hd, fun _ => rfl⟩
      · rw [if_neg hd]
        exact ⟨fun hc => absurd hc (by simp), fun hc => absurd hc hd⟩
    | succ j =>
      rw [List.getD_cons_succ, List.getD_cons_succ, List.drop_succ_cons]
      exact ih j (by simpa using hj)

theorem dceScan_append_grow (l1 l2 : List TacInst) (S : Finset String) :
    (dceScan l2 S).2 ⊆ (dceScan (l1 ++ l2) S).2 := by
  induction l1 with
  | nil => rw [List.nil_append]
  | cons a l1 ih =>
    rw [List.cons_append, dceScan]
    split
    · exact le_trans ih (subset_addUses a _)
    · exact ih

theorem dceScan_drop_grow (tac : List TacInst) (S : Finset String) (i j : Nat)
    (hij : i ≤ j) :
    (dceScan (tac.drop (j + 1)) S).2 ⊆ (dceScan (tac.drop (i + 1)) S).2 := by
  have hsplit : (tac.drop (i + 1)).take (j - i) ++ tac.drop (j + 1) = tac.drop (i + 1) := by
    have h2 : (tac.drop (i + 1)).drop (j - i) = tac.drop (j + 1) := by
      rw [List.drop_drop]
      congr 1
      omega
    rw [← h2]
    exact List.take_append_drop _ _
  calc (dceScan (tac.drop (j + 1)) S).2
      ⊆ (dceScan ((tac.drop (i + 1)).take (j - i) ++ tac.drop (j + 1)) S).2 :=
        dceScan_append_grow _ _ S
    _ = (dceScan (tac.drop (i + 1)) S).2 := by rw [hsplit]

/-! ## Symbol table lemmas -/

theorem findEntry_modifyEntry (f : ScopeFrame) (n : String) (g : SymbolEntry → SymbolEntry) :
    (f.modifyEntry n g).findEntry n = (f.findEntry n).map g := by
  induction f with
  | nil => rfl
  | cons p rest ih =>
    rcases p with ⟨k, e⟩
    rw [ScopeFrame.modifyEntry]
    by_cases hk : k = n
    · rw [if_pos hk, ScopeFrame.findEntry, if_pos hk, ScopeFrame.findEntry, if_pos hk]
      rfl
    · rw [if_neg hk, ScopeFrame.findEntry, if_neg hk, ScopeFrame.findEntry, if_neg hk]
      exact ih

theorem length_modifyEntry (f : ScopeFrame) (n : String) (g : SymbolEntry → SymbolEntry) :
    (f.modifyEntry n g).length = f.length := by
  induction f with
  | nil => rfl
  | cons p rest ih =>
    rcases p with ⟨k, e⟩
    rw [ScopeFrame.modifyEntry]
    by_cases hk : k = n
    · rw [if_pos hk]
      rfl
    · rw [if_neg hk]
      simpa using ih

/-! ## Generator lemmas for error recovery (claim C5) -/

theorem parseFactor_out_append (s : GenState) (out : List TacInst) :
    ∃ tail, (TACGenerator.parseFactor s out).2.2 = out ++ tail := by
  rw [TACGenerator.parseFactor]
  split
  · exact ⟨[], by simp⟩
  · split
    · exact ⟨[mkLoadConst s.newTemp.1 s.cur.lexeme], rfl⟩
    · exact ⟨[], by simp⟩

theorem parseTermLoop_out_append (left : String) (s : GenState) (out : List TacInst) :
    ∃ tail, (TACGenerator.parseTermLoop left s out).2.2 = out ++ tail := by
  induction left, s, out using TACGenerator.parseTermLoop.induct with
  | case1 left s out h1 s2 out2 h2 =>
    obtain ⟨t1, ht1⟩ := parseFactor_out_append s.pull out
    rw [h2] at ht1
    rw [TACGenerator.parseTermLoop, dif_pos h1, h2]
    exact ⟨t1, ht1⟩
  | case2 left s out h1 right s2 out2 h2 ih =>
    obtain ⟨t1, ht1⟩ := parseFactor_out_append s.pull out
    rw [h2] at ht1
    simp only at ht1
    obtain ⟨t2, ht2⟩ := ih
    simp only [dite_eq_ite] at ht2
    rw [TACGenerator.parseTermLoop, dif_pos h1, h2]
    dsimp only
    refine ⟨t1 ++ [mkBinary (if s.cur.kind = .STAR then .MUL else .DIV) s2.newTemp.1 left right] ++ t2, ?_⟩
    rw [ht2, ht1]
    simp [List.append_assoc]
  | case3 left s out h1 =>
    rw [TACGenerator.parseTermLoop, dif_neg h1]
    exact ⟨[], by simp⟩

theorem parseTerm_out_append (s : GenState) (out : List TacInst) :
    ∃ tail, (TACGenerator.parseTerm s out).2.2 = out ++ tail := by
  rw [TACGenerator.parseTerm]
  obtain ⟨t1, ht1⟩ := parseFactor_out_append s out
  rcases hE : TACGenerator.parseFactor s out with ⟨res, s1, out1⟩
  rw [hE] at ht1
  simp only at ht1
  cases res with
  | none => exact ⟨t1, ht1⟩
  | some left =>
    obtain ⟨t2, ht2⟩ := parseTermLoop_out_append left s1 out1
    refine ⟨t1 ++ t2, ?_⟩
    rw [ht2, ht1, List.append_assoc]

theorem parseExprLoop_out_append (left : String) (s : GenState) (out : List TacInst) :
    ∃ tail, (TACGenerator.parseExprLoop left s out).2.2 = out ++ tail := by
  induction left, s, out using TACGenerator.parseExprLoop.induct with
  | case1 left s out h1 s2 out2 h2 =>
    obtain ⟨t1, ht1⟩ := parseTerm_out_append s.pull out
    rw [h2] at ht1
    rw [TACGenerator.parseExprLoop, dif_pos h1, h2]
    exact ⟨t1, ht1⟩
  | case2 left s out h1 right s2 out2 h2 ih =>
    obtain ⟨t1, ht1⟩ := parseTerm_out_append s.pull out
    rw [h2] at ht1
    simp only at ht1
    obtain ⟨t2, ht2⟩ := ih
    simp only [dite_eq_ite] at ht2
    rw [TACGenerator.parseExprLoop, dif_pos h1, h2]
    dsimp only
    refine ⟨t1 ++ [mkBinary (if s.cur.kind = .PLUS then .ADD else .SUB) s2.newTemp.1 left right] ++ t2, ?_⟩
    rw [ht2, ht1]
    simp [List.append_assoc]
  | case3 left s out h1 =>
    rw [TACGenerator.parseExprLoop, dif_neg h1]
    exact ⟨[], by simp⟩

theorem parseExpression_out_append (s : GenState) (out : List TacInst) :
    ∃ tail, (TACGenerator.parseExpression s out).2.2 = out ++ tail := by
  rw [TACGenerator.parseExpression, TACGenerator.parseTerm]
  obtain ⟨t1, ht1⟩ := parseFactor_out_append s out
  rcases hE : TACGenerator.parseFactor s out with ⟨res, s1, out1⟩
  rw [hE] at ht1
  simp only at ht1
  cases res with
  | none => exact ⟨t1, ht1⟩
  | some left =>
    obtain ⟨t2, ht2⟩ := parseTermLoop_out_append left s1 out1
    rcases hL : TACGenerator.parseTermLoop left s1 out1 with ⟨res2, s2, out2⟩
    rw [hL] at ht2
    simp only at ht2
    dsimp only
    rw [hL]
    cases res2 with
    | none =>
      exact ⟨t1 ++ t2, by dsimp only; rw [ht2, ht1, List.append_assoc]⟩
    | some left2 =>
      obtain ⟨t3, ht3⟩ := parseExprLoop_out_append left2 s2 out2
      exact ⟨t1 ++ (t2 ++ t3), by dsimp only; rw [ht3, ht2, ht1]; simp [List.append_assoc]⟩

theorem parseStatement_out_append (s : GenState) (out : List TacInst) :
    ∃ tail, (TACGenerator.parseStatement s out).2.2 = out ++ tail := by
  rw [TACGenerator.parseStatement]
  by_cases h1 : s.cur.kind = .IDENT
  · rw [if_pos h1]
    dsimp only
    by_cases h2 : s.pull.cur.kind = .ASSIGN
    · rw [if_pos h2]
      obtain ⟨t1, ht1⟩ := parseExpression_out_append s.pull.pull out
      rcases hE : TACGenerator.parseExpression s.pull.pull out with ⟨res, sC, outC⟩
      rw [hE] at ht1
      simp only at ht1
      cases res with
      | none => exact ⟨t1, ht1⟩
      | some rhsName =>
        dsimp only
        by_cases h3 : sC.cur.kind = .SEMICOLON
        · rw [if_pos h3]
          exact ⟨t1 ++ [mkAssign s.cur.lexeme rhsName], by dsimp only; rw [ht1]; simp [List.append_assoc]⟩
        · rw [if_neg h3]
          exact ⟨t1, ht1⟩
    · rw [if_neg h2]
      exact ⟨[], by simp⟩
  · rw [if_neg h1]
    exact ⟨[], by simp⟩

theorem parseProgram_success (s : GenState) (out : List TacInst) :
    (TACGenerator.parseProgram s out).1 = true := by
  induction s, out using TACGenerator.parseProgram.induct with
  | case1 s out h0 => rw [TACGenerator.parseProgram, dif_pos h0]
  | case2 s out h0 s1 out1 h1 ih =>
    rw [TACGenerator.parseProgram, dif_neg h0, h1]
    exact ih
  | case3 s out h0 s1 out1 h1 ih =>
    rw [TACGenerator.parseProgram, dif_neg h0, h1]
    exact ih

theorem parseProgram_out_append (s : GenState) (out : List TacInst) :
    ∃ tail, (TACGenerator.parseProgram s out).2.2 = out ++ tail := by
  induction s, out using TACGenerator.parseProgram.induct with
  | case1 s out h0 =>
    rw [TACGenerator.parseProgram, dif_pos h0]
    exact ⟨[], by simp⟩
  | case2 s out h0 s1 out1 h1 ih =>
    rw [TACGenerator.parseProgram, dif_neg h0, h1]
    obtain ⟨t1, ht1⟩ := parseStatement_out_append s out
    rw [h1] at ht1
    simp only at ht1
    obtain ⟨t2, ht2⟩ := ih
    exact ⟨t1 ++ t2, by rw [ht2, ht1, List.append_assoc]⟩
  | case3 s out h0 s1 out1 h1 ih =>
    rw [TACGenerator.parseProgram, dif_neg h0, h1]
    obtain ⟨t1, ht1⟩ := parseStatement_out_append s out
    rw [h1] at ht1
    simp only at ht1
    obtain ⟨t2, ht2⟩ := ih
    exact ⟨t1 ++ t2, by rw [ht2, ht1, List.append_assoc]⟩

theorem parseProgram_recover_eq (s : GenState) (out : List TacInst)
    (s1 : GenState) (out1 : List TacInst) (h0 : ¬ s.cur.kind = .END_OF_FILE)
    (h1 : TACGenerator.parseStatement s out = (false, s1, out1)) :
    TACGenerator.parseProgram s out =
      TACGenerator.parseProgram (TACGenerator.recoverState s1) out1 := by
  rw [TACGenerator.parseProgram, dif_neg h0, h1]

theorem lookup_of_lookupLocal (st : SymbolTable) (n : String) (e : SymbolEntry)
    (h : st.lookupLocal n = some e) : st.lookup n = some e := by
  rcases hs : st.scopes with _ | ⟨f, rest⟩
  · rw [SymbolTable.lookupLocal, hs] at h
    cases h
  · rw [SymbolTable.lookupLocal, hs] at h
    simp only at h
    rw [SymbolTable.lookup, hs, lookupFrames, h]

theorem pull_errs_append (s : GenState) : ∃ tail, s.pull.errs = s.errs ++ tail := by
  rw [GenState.pull]
  rcases s.stream with _ | ⟨⟨t, e⟩, rest⟩
  · exact ⟨[], by simp⟩
  · exact ⟨e.toList, rfl⟩

theorem skipToSemi_errs_append (s : GenState) :
    ∃ tail, (TACGenerator.skipToSemi s).errs = s.errs ++ tail := by
  induction s using TACGenerator.skipToSemi.induct with
  | case1 s h ih =>
    rw [TACGenerator.skipToSemi, dif_pos h]
    obtain ⟨t1, ht1⟩ := pull_errs_append s
    obtain ⟨t2, ht2⟩ := ih
    exact ⟨t1 ++ t2, by rw [ht2, ht1, List.append_assoc]⟩
  | case2 s h =>
    rw [TACGenerator.skipToSemi, dif_neg h]
    exact ⟨[], by simp⟩

theorem recoverState_errs (s : GenState) :
    ∃ more, (TACGenerator.recoverState s).errs =
      s.errs ++ mkReportError .SYNTAX "Skipping to next \x27;\x27 on parse error"
        s.cur.line s.cur.column :: more := by
  rw [TACGenerator.recoverState]
  obtain ⟨t1, ht1⟩ :=
    skipToSemi_errs_append (s.report .SYNTAX "Skipping to next \x27;\x27 on parse error" s.cur.line s.cur.column)
  by_cases h2 : (TACGenerator.skipToSemi
      (s.report .SYNTAX "Skipping to next \x27;\x27 on parse error" s.cur.line s.cur.column)).cur.kind = .SEMICOLON
  · rw [if_pos h2]
    obtain ⟨t2, ht2⟩ := pull_errs_append (TACGenerator.skipToSemi
      (s.report .SYNTAX "Skipping to next \x27;\x27 on parse error" s.cur.line s.cur.column))
    refine ⟨t1 ++ t2, ?_⟩
    rw [ht2, ht1]
    simp [GenState.report]
  · rw [if_neg h2]
    refine ⟨t1, ?_⟩
    rw [ht1]
    simp [GenState.report]

/-! ## Claim theorems -/

/-- Claim C1: for the input program `x = 1.5 + 2.0;`, the TAC
generator emits exactly LoadConstant of `1.5` into the first
temporary, LoadConstant of `2.0` into the second, an Add of the two
into a third, and an Assign of that third temporary into `x`, in that
order and with no other instructions. -/
theorem c1_sum_program_tac :
    (runGenerate "x = 1.5 + 2.0;").2.2 =
      [mkLoadConst "t0" "1.5", mkLoadConst "t1" "2.0",
       mkBinary .ADD "t2" "t0" "t1", mkAssign "x" "t2"] := by
  rw [runGenerate_eq]
  decide

/-- Claim C2: for every instruction sequence and symbol-table state,
`eliminate` computes exactly what the specification describes: seed
the live set with every named (non-temporary) destination occurring
anywhere in the sequence that is not in the unused-entries report,
scan last to first keeping an instruction exactly when its
destination is live and then adding the names it reads, and return
the kept instructions in their original relative order
(`eliminateSpec` is that description, transcribed from the spec). -/
theorem c2_eliminate_follows_spec (tac : List TacInst) (sym : SymbolTable) :
    DeadCodeEliminator.eliminate tac sym = eliminateSpec tac sym := by
  rw [DeadCodeEliminator.eliminate, eliminateSpec, specSeed_eq_dceSeed]
  exact (specScan_eq_dceScan tac (dceSeed tac sym) (empty_not_mem_dceSeed tac sym)).1.symm

/-- Claim C3, counterexample: the pooling criterion is the first
character being `t`, not "generator-introduced temporary and not a
user-level name".  Compiling `x = temp + temp;`, where `temp` is a
user-written identifier, leaves the user-level name `temp` on the
reclaim pool twice, although the mint counter reached only 1 (so the
only name the generator ever introduced is `t0`, and `temp` is not
it). -/
theorem c3_user_name_pooled_cex :
    (runGenerate "x = temp + temp;").2.1.freeTemps = ["temp", "temp"] ∧
      (runGenerate "x = temp + temp;").2.1.tempCounter = 1 ∧
      ¬ "temp" = "t" ++ toString 0 := by
  rw [runGenerate_eq]
  decide

/-- Claim C3 as amended: a fresh destination is obtained by checking
the reclaim pool first and otherwise minting `t<counter>` from the
monotonically increasing counter; an operand consumed by a binary
fold is pushed back exactly when its name is non-empty and begins
with the character `t` (which includes user-level names such as
`temp`); and both the counter and the pool persist across statements
for the whole run, witnessed by `x = 1.0 + 2.0; y = 3.0 + 4.0;`
reusing the first statement's temporaries `t1`, `t0` in the second
statement and minting `t3` (not `t0`) for its sum. -/
theorem c3_temp_pool_behaviour :
    (∀ s : GenState, s.freeTemps = [] →
      s.newTemp = ("t" ++ toString s.tempCounter, { s with tempCounter := s.tempCounter + 1 })) ∧
    (∀ (s : GenState) (t : String) (rest : List String), s.freeTemps = t :: rest →
      s.newTemp = (t, { s with freeTemps := rest })) ∧
    (∀ (left right : String) (s : GenState),
      (pushTemps left right s).freeTemps =
        (if 0 < right.length ∧ headCharIs 't' right = true then [right] else []) ++
        (if 0 < left.length ∧ headCharIs 't' left = true then [left] else []) ++ s.freeTemps) ∧
    ((runGenerate "x = 1.0 + 2.0; y = 3.0 + 4.0;").2.2 =
      [mkLoadConst "t0" "1.0", mkLoadConst "t1" "2.0", mkBinary .ADD "t2" "t0" "t1",
       mkAssign "x" "t2", mkLoadConst "t1" "3.0", mkLoadConst "t0" "4.0",
       mkBinary .ADD "t3" "t1" "t0", mkAssign "y" "t3"] ∧
     (runGenerate "x = 1.0 + 2.0; y = 3.0 + 4.0;").2.1.tempCounter = 4 ∧
     (runGenerate "x = 1.0 + 2.0; y = 3.0 + 4.0;").2.1.freeTemps = ["t0", "t1"]) := by
  refine ⟨?_, ?_, ?_, ?_⟩
  · intro s h
    rw [GenState.newTemp, h]
  · intro s t rest h
    rw [GenState.newTemp, h]
  · intro left right s
    rw [pushTemps]
    by_cases h1 : 0 < left.length ∧ headCharIs 't' left = true <;>
      by_cases h2 : 0 < right.length ∧ headCharIs 't' right = true <;>
        simp [h1, h2]
  · rw [runGenerate_eq]
    decide

/-- Witness for the hypotheses of `c3_temp_pool_behaviour`: an empty
pool mints `t5` from counter 5; a non-empty pool pops its top. -/
theorem c3_temp_pool_behaviour_witness :
    GenState.newTemp ⟨[], eofToken, SymbolTable.init, [], 5, []⟩ =
      ("t5", ⟨[], eofToken, SymbolTable.init, [], 6, []⟩) ∧
    GenState.newTemp ⟨[], eofToken, SymbolTable.init, [], 5, ["a", "b"]⟩ =
      ("a", ⟨[], eofToken, SymbolTable.init, [], 5, ["b"]⟩) := by
  constructor
  · exact (c3_temp_pool_behaviour.1 ⟨[], eofToken, SymbolTable.init, [], 5, []⟩ rfl).trans
      (by decide)
  · exact (c3_temp_pool_behaviour.2.1 ⟨[], eofToken, SymbolTable.init, [], 5, ["a", "b"]⟩
      "a" ["b"] rfl).trans (by decide)

/-- Claim C4, counterexample: compiling `y = z;` with no prior
binding of `z` raises no diagnostic at all — in particular not the
claimed single UndeclaredIdentifier — because the streaming lexer
inserts a token placeholder for `z` before the reference is
resolved. -/
theorem c4_no_undeclared_cex :
    (runGenerate "y = z;").2.1.errs.length = 0 := by
  rw [runGenerate_eq]
  decide

/-- Claim C4 as amended: compiling `y = z;` raises no
UndeclaredIdentifier (the lexer's placeholder insertion pre-declares
`z`), and the final table contains a dummy entry for `z` with
`is_used = true`. -/
theorem c4_dummy_z_used :
    (runGenerate "y = z;").2.1.errs = [] ∧
      (runGenerate "y = z;").2.1.sym.lookup "z" =
        some ⟨"z", "token", "unknown", 0, "stk1", "", false, true, 1, true⟩ := by
  rw [runGenerate_eq]
  decide

/-- Claim C5: `generate` returns success to its caller for every
token stream and emitted prefix (first conjunct); the instructions
emitted before a malformed statement are preserved — parsing only
ever appends (second conjunct); the recovery skip stops exactly at a
statement terminator or end of input (third conjunct); and a failed
statement makes `parseProgram` resume parsing at the recovery state,
whose error list extends the failed statement's errors with the
Syntax diagnostic of the skip (fourth conjunct). -/
theorem c5_generate_always_succeeds :
    (∀ (s : GenState) (out : List TacInst), (TACGenerator.generate s out).1 = true) ∧
    (∀ (s : GenState) (out : List TacInst), ∃ tail,
      (TACGenerator.generate s out).2.2 = out ++ tail) ∧
    (∀ s : GenState, (TACGenerator.skipToSemi s).cur.kind = .SEMICOLON ∨
      (TACGenerator.skipToSemi s).cur.kind = .END_OF_FILE) ∧
    (∀ (s : GenState) (out : List TacInst) (s1 : GenState) (out1 : List TacInst),
      ¬ s.cur.kind = .END_OF_FILE →
      TACGenerator.parseStatement s out = (false, s1, out1) →
      TACGenerator.parseProgram s out =
        TACGenerator.parseProgram (TACGenerator.recoverState s1) out1 ∧
      ∃ more, (TACGenerator.recoverState s1).errs =
        s1.errs ++ mkReportError .SYNTAX "Skipping to next \x27;\x27 on parse error"
          s1.cur.line s1.cur.column :: more) := by
  refine ⟨?_, ?_, skipToSemi_cur, ?_⟩
  · intro s out
    exact parseProgram_success s out
  · intro s out
    exact parseProgram_out_append s out
  · intro s out s1 out1 h0 h1
    exact ⟨parseProgram_recover_eq s out s1 out1 h0 h1, recoverState_errs s1⟩

/-- Witness for the hypotheses of `c5_generate_always_succeeds`: the
malformed program `1;` fails its first statement, and the program
loop resumes at the recovery state with the skip diagnostic
recorded. -/
theorem c5_generate_always_succeeds_witness :
    TACGenerator.parseProgram (initGenState (tokenize "1;") SymbolTable.init) [] =
      TACGenerator.parseProgram
        (TACGenerator.recoverState
          ((TACGenerator.parseStatement (initGenState (tokenize "1;") SymbolTable.init) []).2.1))
        ((TACGenerator.parseStatement (initGenState (tokenize "1;") SymbolTable.init) []).2.2) ∧
    ∃ more, (TACGenerator.recoverState
        ((TACGenerator.parseStatement (initGenState (tokenize "1;") SymbolTable.init) []).2.1)).errs =
      ((TACGenerator.parseStatement (initGenState (tokenize "1;") SymbolTable.init) []).2.1).errs ++
        mkReportError .SYNTAX "Skipping to next \x27;\x27 on parse error"
          ((TACGenerator.parseStatement (initGenState (tokenize "1;") SymbolTable.init) []).2.1).cur.line
          ((TACGenerator.parseStatement (initGenState (tokenize "1;") SymbolTable.init) []).2.1).cur.column :: more := by
  have hfalse : (TACGenerator.parseStatement (initGenState (tokenize "1;") SymbolTable.init) []).1 = false := by
    decide
  have h0 : ¬ (initGenState (tokenize "1;") SymbolTable.init).cur.kind = .END_OF_FILE := by
    decide
  exact c5_generate_always_succeeds.2.2.2 (initGenState (tokenize "1;") SymbolTable.init) []
    ((TACGenerator.parseStatement (initGenState (tokenize "1;") SymbolTable.init) []).2.1)
    ((TACGenerator.parseStatement (initGenState (tokenize "1;") SymbolTable.init) []).2.2)
    h0 (by rw [← hfalse])

/-- How many entries named `n` the whole table holds, over all
scope frames. -/
def countNamed (sym : SymbolTable) (n : String) : Nat :=
  (sym.scopes.map (fun f => (f.filter (fun p => p.1 == n)).length)).sum

/-- Claim C6: a left-hand name that resolves to an existing dummy
entry in the (innermost) frame is promoted in place — the looked-up
entry afterwards differs only in kind, type, isDummy and declLine,
keeping its address and scope level, while no frame changes size and
the address counter is untouched (first conjunct); a left-hand name
that resolves to an already-concrete entry changes nothing at all
(second conjunct); concretely, `x = 1.0; x = 2.0;` raises no
diagnostic — in particular no DuplicateDeclaration — and leaves
exactly one entry for `x` (third conjunct). -/
theorem c6_dummy_promotion :
    (∀ (s : GenState) (lhs : String) (line : Int) (e : SymbolEntry),
      s.sym.lookupLocal lhs = some e → e.is_dummy = true →
      (TACGenerator.declareLhs s lhs line).sym.lookup lhs =
        some { e with kind := "variable", type := "float", is_dummy := false, decl_line := line } ∧
      (TACGenerator.declareLhs s lhs line).sym.scopes.map List.length =
        s.sym.scopes.map List.length ∧
      (TACGenerator.declareLhs s lhs line).sym.nextMemoryIndex = s.sym.nextMemoryIndex) ∧
    (∀ (s : GenState) (lhs : String) (line : Int) (e : SymbolEntry),
      s.sym.lookup lhs = some e → e.is_dummy = false →
      TACGenerator.declareLhs s lhs line = s) ∧
    ((runGenerate "x = 1.0; x = 2.0;").2.1.errs = [] ∧
      countNamed (runGenerate "x = 1.0; x = 2.0;").2.1.sym "x" = 1) := by
  refine ⟨?_, ?_, ?_⟩
  · intro s lhs line e hL hd
    have hlook : s.sym.lookup lhs = some e := lookup_of_lookupLocal _ _ _ hL
    rcases hs : s.sym.scopes with _ | ⟨f, rest⟩
    · rw [SymbolTable.lookupLocal, hs] at hL
      cases hL
    · rw [SymbolTable.lookupLocal, hs] at hL
      simp only at hL
      rw [TACGenerator.declareLhs, hlook]
      dsimp only
      rw [if_pos hd]
      rw [SymbolTable.updateEntry]
      rw [show s.sym.lookupLocal lhs = some e from by rw [SymbolTable.lookupLocal, hs]; exact hL]
      dsimp only
      rw [SymbolTable.applyLocal, hs]
      refine ⟨?_, ?_, rfl⟩
      · rw [SymbolTable.lookup]
        dsimp only
        rw [lookupFrames, findEntry_modifyEntry, hL]
        rfl
      · rw [List.map_cons, List.map_cons, length_modifyEntry]
  · intro s lhs line e hlook hd
    rw [TACGenerator.declareLhs, hlook]
    dsimp only
    rw [if_neg (by rw [hd]; simp)]
  · rw [runGenerate_eq]
    decide

/-- Witness for the hypotheses of `c6_dummy_promotion`: promoting a
concrete dummy entry for `w` keeps its address `stk2` and scope while
rewriting kind, type, isDummy and declLine; a non-dummy lookup leaves
the state untouched. -/
theorem c6_dummy_promotion_witness :
    (TACGenerator.declareLhs
        ⟨[], eofToken, ⟨[[("w", ⟨"w", "token", "unknown", 0, "stk2", "", false, false, 5, true⟩)]], 3⟩, [], 0, []⟩
        "w" 7).sym.lookup "w" =
      some ⟨"w", "variable", "float", 0, "stk2", "", false, false, 7, false⟩ ∧
    TACGenerator.declareLhs
        ⟨[], eofToken, ⟨[[("v", ⟨"v", "variable", "float", 0, "stk0", "", false, true, 2, false⟩)]], 1⟩, [], 0, []⟩
        "v" 9 =
      ⟨[], eofToken, ⟨[[("v", ⟨"v", "variable", "float", 0, "stk0", "", false, true, 2, false⟩)]], 1⟩, [], 0, []⟩ := by
  constructor
  · exact (c6_dummy_promotion.1
      ⟨[], eofToken, ⟨[[("w", ⟨"w", "token", "unknown", 0, "stk2", "", false, false, 5, true⟩)]], 3⟩, [], 0, []⟩
      "w" 7 ⟨"w", "token", "unknown", 0, "stk2", "", false, false, 5, true⟩ (by decide) rfl).1
  · exact c6_dummy_promotion.2.1
      ⟨[], eofToken, ⟨[[("v", ⟨"v", "variable", "float", 0, "stk0", "", false, true, 2, false⟩)]], 1⟩, [], 0, []⟩
      "v" 9 ⟨"v", "variable", "float", 0, "stk0", "", false, true, 2, false⟩ (by decide) rfl

/-- Claim C7: `insert` fails and reports a DuplicateDeclaration
diagnostic citing the original entry's declaration line exactly when
the name already exists in the innermost scope frame; when the name
is absent from the innermost frame the insert succeeds into that
frame without any diagnostic, leaving the outer frames untouched —
so shadowing an outer binding is always permitted and undiagnosed. -/
theorem c7_insert_duplicate_iff (st : SymbolTable) (e : SymbolEntry)
    (f : ScopeFrame) (rest : List ScopeFrame) (hs : st.scopes = f :: rest) :
    (∀ orig, f.findEntry e.name = some orig →
      st.insert e = (st, false, some (reportDuplicate orig e)) ∧
      (reportDuplicate orig e).message =
        "Duplicate declaration of \x27" ++ e.name ++
          "\x27; previously declared at line " ++ toString orig.decl_line) ∧
    (f.findEntry e.name = none →
      (st.insert e).2.1 = true ∧ (st.insert e).2.2 = none ∧
      ∃ e2, (st.insert e).1.scopes = f.store e.name e2 :: rest) := by
  constructor
  · intro orig horig
    rw [SymbolTable.insert, hs]
    dsimp only
    rw [horig]
    exact ⟨rfl, rfl⟩
  · intro hnone
    rw [SymbolTable.insert, hs]
    dsimp only
    rw [hnone]
    exact ⟨rfl, rfl,
      ⟨(assignAddr { e with scopeLevel := st.currentScope } st.nextMemoryIndex).1, rfl⟩⟩

/-- Witness for the hypotheses of `c7_insert_duplicate_iff`: with an
inner frame holding `a` (declared at line 4) and the global frame
holding `b`, inserting `a` again fails with the citing diagnostic,
while inserting `b` (present only in the outer frame) succeeds
silently into the inner frame. -/
theorem c7_insert_duplicate_iff_witness :
    (SymbolTable.insert
        ⟨[[("a", ⟨"a", "variable", "float", 1, "stk1", "", false, false, 4, false⟩)],
          [("b", ⟨"b", "variable", "float", 0, "stk0", "", false, false, 2, false⟩)]], 2⟩
        (mkEntry "a" "variable" "float" 1 9) =
      (⟨[[("a", ⟨"a", "variable", "float", 1, "stk1", "", false, false, 4, false⟩)],
          [("b", ⟨"b", "variable", "float", 0, "stk0", "", false, false, 2, false⟩)]], 2⟩,
        false,
        some (reportDuplicate ⟨"a", "variable", "float", 1, "stk1", "", false, false, 4, false⟩
          (mkEntry "a" "variable" "float" 1 9)))) ∧
    ((SymbolTable.insert
        ⟨[[("a", ⟨"a", "variable", "float", 1, "stk1", "", false, false, 4, false⟩)],
          [("b", ⟨"b", "variable", "float", 0, "stk0", "", false, false, 2, false⟩)]], 2⟩
        (mkEntry "b" "variable" "float" 1 9)).2.1 = true ∧
      (SymbolTable.insert
        ⟨[[("a", ⟨"a", "variable", "float", 1, "stk1", "", false, false, 4, false⟩)],
          [("b", ⟨"b", "variable", "float", 0, "stk0", "", false, false, 2, false⟩)]], 2⟩
        (mkEntry "b" "variable" "float" 1 9)).2.2 = none) := by
  constructor
  · exact ((c7_insert_duplicate_iff
      ⟨[[("a", ⟨"a", "variable", "float", 1, "stk1", "", false, false, 4, false⟩)],
        [("b", ⟨"b", "variable", "float", 0, "stk0", "", false, false, 2, false⟩)]], 2⟩
      (mkEntry "a" "variable" "float" 1 9) _ _ rfl).1
      ⟨"a", "variable", "float", 1, "stk1", "", false, false, 4, false⟩ (by decide)).1
  · have h := (c7_insert_duplicate_iff
      ⟨[[("a", ⟨"a", "variable", "float", 1, "stk1", "", false, false, 4, false⟩)],
        [("b", ⟨"b", "variable", "float", 0, "stk0", "", false, false, 2, false⟩)]], 2⟩
      (mkEntry "b" "variable" "float" 1 9) _ _ rfl).2 (by decide)
    exact ⟨h.1, h.2.1⟩

/-- Claim C8: elimination is idempotent — running `eliminate` a
second time on the output of the first run, against the same
symbol-table state, returns that output unchanged. -/
theorem c8_eliminate_idempotent (tac : List TacInst) (sym : SymbolTable) :
    DeadCodeEliminator.eliminate (DeadCodeEliminator.eliminate tac sym) sym =
      DeadCodeEliminator.eliminate tac sym := by
  have hseed := dceSeed_eliminate_eq tac sym
  have hall := (dceScan_kept_all tac (dceSeed tac sym) (dceSeed tac sym)
    (Finset.Subset.refl _)).1
  rw [DeadCodeEliminator.eliminate, hseed]
  rw [show DeadCodeEliminator.eliminate tac sym =
    keepFiltered tac (dceScan tac (dceSeed tac sym)).1 from rfl]
  rw [hall, keepFiltered_replicate_true]

/-- Claim C9: the backward scan's live set only grows (first
conjunct), so liveness is per name, not per definition: whenever the
instruction at position `j` is retained, any earlier instruction at
position `i` with the same destination is retained too, regardless
of intervening redefinitions (second conjunct). -/
theorem c9_per_name_liveness :
    (∀ (tac : List TacInst) (live : Finset String), live ⊆ (dceScan tac live).2) ∧
    (∀ (tac : List TacInst) (sym : SymbolTable) (i j : Nat), i < j → j < tac.length →
      (dceScan tac (dceSeed tac sym)).1.getD j false = true →
      (tac.getD i defaultInst).dest = (tac.getD j defaultInst).dest →
      (dceScan tac (dceSeed tac sym)).1.getD i false = true) := by
  refine ⟨dceScan_grow, ?_⟩
  intro tac sym i j hij hj hflag hdest
  have hi : i < tac.length := lt_trans hij hj
  have hj2 := (dceScan_flag_getD tac (dceSeed tac sym) j hj).mp hflag
  refine (dceScan_flag_getD tac (dceSeed tac sym) i hi).mpr ?_
  constructor
  · rw [hdest]
    exact hj2.1
  · rw [hdest]
    exact dceScan_drop_grow tac (dceSeed tac sym) i j (le_of_lt hij) hj2.2

/-- Witness for the hypotheses of `c9_per_name_liveness`: in
`x = a; x = b` (two assignments to `x`), the later assignment is
retained, and the theorem forces the earlier shadowed assignment to
be retained as well. -/
theorem c9_per_name_liveness_witness :
    (dceScan [mkAssign "x" "a", mkAssign "x" "b"]
      (dceSeed [mkAssign "x" "a", mkAssign "x" "b"] SymbolTable.init)).1.getD 0 false = true :=
  c9_per_name_liveness.2 [mkAssign "x" "a", mkAssign "x" "b"] SymbolTable.init 0 1
    (by decide) (by decide) (by decide) (by decide)

/-- Claim C10: the eliminator classifies a destination as a
temporary purely by its first character being `t` — any such
destination is excluded from the initial live-set seeding for every
instruction sequence and symbol-table state (first conjunct); in
particular an instruction assigning to the user-declared variable
`temp`, whose symbol-table entry is marked used, is dropped when no
retained instruction reads it (second conjunct). -/
theorem c10_t_prefix_classifier :
    (∀ (tac : List TacInst) (sym : SymbolTable) (d : String),
      headCharIs 't' d = true → d ∉ dceSeed tac sym) ∧
    DeadCodeEliminator.eliminate [mkAssign "temp" "x"]
      ⟨[[("temp", { mkEntry "temp" "variable" "float" 0 1 with is_used := true })]], 1⟩ = [] := by
  constructor
  · exact fun tac sym d h => tmp_not_mem_dceSeed tac sym d h
  · decide

/-- Witness for the hypothesis of `c10_t_prefix_classifier`: the
user-style name `temp` starts with `t`, so it is not seeded even for
the empty sequence and a fresh table. -/
theorem c10_t_prefix_classifier_witness :
    "temp" ∉ dceSeed [] SymbolTable.init :=
  c10_t_prefix_classifier.1 [] SymbolTable.init "temp" (by decide)
